import Mathlib

/-!
Formal model of the getbiji-sync plugin core (src/markdown.ts, src/auth.ts,
src/api.ts, src/sync.ts, src/main.ts), as a shallow embedding in Lean.

Conventions for embedding TypeScript/JavaScript values:
* A JS string field that may be `undefined`/`null` is `Option String`
  (`none` = absent/null); JS truthiness of a string is `s ≠ ""`, and
  truthiness of an optional string treats both `none` and `some ""` as falsy.
* A JS value ranging over `undefined | null | string` (the stored frontmatter
  identifier) is `Option (Option String)`: `none` = undefined,
  `some none` = null, `some (some s)` = the string `s`.
* JS `slice`/`split`/`trim` are modelled on the character level; strings are
  treated as sequences of code points (faithful on the BMP inputs that occur).
* The host application's `normalizePath` and the regex-based `cleanHtml`
  (whose output no claim depends on) are uninterpreted function parameters:
  every theorem below holds for every instantiation.
-/

/-- JS truthiness of an optional string: `undefined`, `null` and `""` are falsy. -/
def optTruthy (o : Option String) : Bool := (o.getD "") ≠ ""

/-- Characters removed by `UNSAFE_CHARS = /[\/\\?%*:|"<>\0]/g` in markdown.ts. -/
def isUnsafeChar (c : Char) : Bool :=
  c = '/' || c = '\\' || c = '?' || c = '%' || c = '*' || c = ':' ||
  c = '|' || c = '"' || c = '<' || c = '>' || c.toNat = 0

/-- The JS `\s` character class (whitespace as matched by `/\s/`). -/
def isJsSpace (c : Char) : Bool :=
  let n := c.toNat
  n = 9 || n = 10 || n = 11 || n = 12 || n = 13 || n = 32 || n = 0xa0 ||
    n = 0x1680 || (0x2000 ≤ n && n ≤ 0x200a) || n = 0x2028 || n = 0x2029 ||
    n = 0x202f || n = 0x205f || n = 0x3000 || n = 0xfeff

/-- Replace every maximal run of characters satisfying `p` by the single
character `rep` (the effect of `.replace(/X+/g, rep)`). The boolean flag
records whether the previous character was part of a run. -/
def collapseRuns (p : Char → Bool) (rep : Char) : Bool → List Char → List Char
  | _, [] => []
  | inRun, c :: cs =>
    if p c then
      if inRun then collapseRuns p rep true cs
      else rep :: collapseRuns p rep true cs
    else c :: collapseRuns p rep false cs

/-- JS `String.prototype.trim()` (strips `\s` from both ends). -/
def trimJs (cs : List Char) : List Char :=
  ((cs.dropWhile isJsSpace).reverse.dropWhile isJsSpace).reverse

/-- JS `String.prototype.split` with a single-character separator
(structural, so that concrete runs evaluate by kernel reduction). -/
def splitOnChar (sep : Char) : List Char → List (List Char)
  | [] => [[]]
  | c :: rest =>
    if c = sep then [] :: splitOnChar sep rest
    else
      match splitOnChar sep rest with
      | h :: t => (c :: h) :: t
      | [] => [[c]]

/-- markdown.ts `sanitizeFilename`: remove unsafe characters, collapse
whitespace runs to one space, strip leading dots, trim, truncate to 200,
with the fixed fallback title for an empty result. -/
def sanitizeFilename (name : String) : String :=
  let step1 := name.toList.filter (fun c => !isUnsafeChar c)
  let step2 := collapseRuns isJsSpace ' ' false step1
  let step3 := step2.dropWhile (fun c => c = '.')
  let step4 := trimJs step3
  let result := String.mk (step4.take 200)
  if result = "" then "无标题" else result

/-- One character's contribution to `escapeYamlString`; the chained
`.replace` calls in markdown.ts act independently per original character. -/
def escapeYamlChar (c : Char) : List Char :=
  if c = '\\' then ['\\', '\\']
  else if c = '"' then ['\\', '"']
  else if c = '\n' then ['\\', 'n']
  else if c = '\r' then ['\\', 'r']
  else if c = '\t' then ['\\', 't']
  else if c.toNat = 0 then []
  else if c.toNat = 0x2028 || c.toNat = 0x2029 then []
  else [c]

/-- markdown.ts `escapeYamlString`. -/
def escapeYamlString (value : String) : String :=
  String.mk ((value.toList.map escapeYamlChar).flatten)

/-- The service's wire note (types.ts `BijiNote`); fields the service may
omit or null out are `Option`s. -/
structure BijiTag where
  id : String
  name : String
  type : String
deriving DecidableEq, Repr

structure BijiAttachment where
  type : String
  url : String
  title : String
deriving DecidableEq, Repr

structure BijiNote where
  id : String
  title : String
  content : String
  body_text : String
  source : Option String
  note_type : Option String
  entry_type : Option String
  tags : Option (List BijiTag)
  attachments : Option (List BijiAttachment)
  created_at : String
  updated_at : String
deriving DecidableEq, Repr

/-- The internal canonical note (types.ts `RawNote`). -/
structure RawNote where
  id : String
  title : String
  content : String
  tags : List String
  createdAt : String
  updatedAt : String
  sourceUrl : Option String
  noteType : String
  entryType : Option String
  origin : Option String
  originalContent : Option String
deriving DecidableEq, Repr

/-- markdown.ts `bijiNoteToRawNote`, parameterised by the HTML cleaner. -/
def bijiNoteToRawNote (cleanHtml : String → String) (note : BijiNote) :
    Option RawNote :=
  if note.id = "" then none
  else
    let tagNames :=
      ((note.tags.getD []).filter
        (fun t => t.name ≠ "" && t.type ≠ "system")).map (fun t => t.name)
    let sourceUrl :=
      ((note.attachments.getD []).find? (fun a => a.url ≠ "")).map
        (fun a => a.url)
    let rawContent :=
      if note.content ≠ "" then note.content
      else if note.body_text ≠ "" then note.body_text else ""
    let content := cleanHtml rawContent
    let title := if note.title ≠ "" then note.title else "无标题"
    some { id := note.id
           title := title
           content := content
           tags := tagNames
           createdAt := note.created_at
           updatedAt := note.updated_at
           sourceUrl := sourceUrl
           noteType := note.note_type.getD "unknown"
           entryType := note.entry_type
           origin := note.source
           originalContent := none }

/-- markdown.ts `buildFrontmatter` (fixed key order, optional fields omitted
when falsy). -/
def buildFrontmatter (note : RawNote) : String :=
  let lines : List String :=
    ["biji_id: \"" ++ escapeYamlString note.id ++ "\"",
     "title: \"" ++ escapeYamlString note.title ++ "\""]
    ++ (if note.noteType ≠ "" then
          ["note_type: \"" ++ escapeYamlString note.noteType ++ "\""] else [])
    ++ (if optTruthy note.entryType then
          ["entry_type: \"" ++ escapeYamlString (note.entryType.getD "") ++ "\""]
        else [])
    ++ [if note.tags = [] then "tags: []"
        else "tags:\n" ++ String.intercalate "\n"
          (note.tags.map (fun t => "  - \"" ++ escapeYamlString t ++ "\""))]
    ++ (if optTruthy note.sourceUrl then
          ["source_url: \"" ++ escapeYamlString (note.sourceUrl.getD "") ++ "\""]
        else [])
    ++ (if optTruthy note.origin then
          ["origin: \"" ++ escapeYamlString (note.origin.getD "") ++ "\""]
        else [])
    ++ ["created_at: \"" ++ escapeYamlString note.createdAt ++ "\"",
        "updated_at: \"" ++ escapeYamlString note.updatedAt ++ "\""]
  "---\n" ++ String.intercalate "\n" lines ++ "\n---"

/-- The callout body: strip one trailing newline, split on newlines, prefix
each nonempty line with a quote marker. -/
def calloutLines (oc : String) : List String :=
  let cs := oc.toList
  let base :=
    match cs.reverse with
    | '\n' :: t => t.reverse
    | _ => cs
  (splitOnChar '\n' base).map
    (fun line => if line ≠ [] then "> " ++ String.mk line else ">")

/-- markdown.ts `buildMarkdown`. -/
def buildMarkdown (note : RawNote) : String :=
  let frontmatter := buildFrontmatter note
  let safeTitle :=
    String.mk (collapseRuns (fun c => c = '\r' || c = '\n') ' ' false
      note.title.toList)
  let parts := [frontmatter, "", "# " ++ safeTitle, "", note.content]
  let parts :=
    if optTruthy note.originalContent then
      parts ++ ["", "> [!quote]- 原文"] ++ calloutLines (note.originalContent.getD "")
    else parts
  String.intercalate "\n" parts ++ "\n"

/-- markdown.ts `resolveFilename`. The third argument is the JS value
`existingBijiId : string | null | undefined`:
`none` = undefined, `some none` = null, `some (some s)` = a string.
The guard is `existingBijiId !== undefined && existingBijiId !== bijiId`. -/
def resolveFilename (title bijiId : String)
    (existingBijiId : Option (Option String)) : String :=
  let base := sanitizeFilename (if title ≠ "" then title else "无标题")
  match existingBijiId with
  | none => base
  | some e => if e = some bijiId then base else base ++ "-" ++ bijiId.take 6

/-! ### Auth layer (src/auth.ts)

`decodeJwt` is modelled with an executable forgiving-base64 decoder (the
behaviour of the browser `atob`) and an executable JSON parser modelling
`JSON.parse`. JS exceptions inside the function's `try` block all map to
`none`. -/

/-- auth.ts `validateRefreshToken`: the refresh token is an opaque string,
only checked for non-emptiness. -/
def validateRefreshToken (refreshToken : String) : Option String :=
  if refreshToken = "" then some "Please configure refresh token in settings"
  else none

def braceOpen : Char := Char.ofNat 123

def braceClose : Char := Char.ofNat 125

/-- ASCII whitespace stripped by the forgiving-base64 decode. -/
def isAsciiWs (c : Char) : Bool :=
  c.toNat = 9 || c.toNat = 10 || c.toNat = 12 || c.toNat = 13 || c.toNat = 32

/-- Value of a standard base64 alphabet character. -/
def b64Value (c : Char) : Option Nat :=
  let n := c.toNat
  if 65 ≤ n && n ≤ 90 then some (n - 65)
  else if 97 ≤ n && n ≤ 122 then some (n - 97 + 26)
  else if 48 ≤ n && n ≤ 57 then some (n - 48 + 52)
  else if c = '+' then some 62
  else if c = '/' then some 63
  else none

/-- Turn a list of sextet values into bytes (24-bit groups; a trailing group
of 2 or 3 sextets contributes 1 or 2 bytes, excess bits discarded). -/
def b64Groups : List Nat → Option (List Nat)
  | [] => some []
  | [_] => none
  | [a, b] => some [a * 4 + b / 16]
  | [a, b, c] => some [a * 4 + b / 16, (b % 16) * 16 + c / 4]
  | a :: b :: c :: d :: rest =>
    (b64Groups rest).map (fun tail =>
      (a * 4 + b / 16) :: ((b % 16) * 16 + c / 4) :: ((c % 4) * 64 + d) :: tail)

/-- The browser `atob`: forgiving-base64 decode, producing a string of
characters with code points 0–255 (`none` models the thrown
`InvalidCharacterError`). -/
def atob (data : String) : Option String :=
  let cs0 := data.toList.filter (fun c => !isAsciiWs c)
  let cs :=
    if cs0.length % 4 = 0 then
      if cs0.reverse.take 2 = ['=', '='] then cs0.dropLast.dropLast
      else if cs0.reverse.take 1 = ['='] then cs0.dropLast
      else cs0
    else cs0
  if cs.length % 4 = 1 then none
  else
    match cs.mapM b64Value with
    | none => none
    | some sextets =>
      (b64Groups sextets).map (fun bytes => String.mk (bytes.map Char.ofNat))

/-- The base64url→base64 conversion and padding performed by `decodeJwt`. -/
def base64UrlToBase64 (s : String) : String :=
  let mapped := s.toList.map
    (fun c => if c = '-' then '+' else if c = '_' then '/' else c)
  let padLength := (4 - mapped.length % 4) % 4
  String.mk (mapped ++ List.replicate padLength '=')

/-- JSON values as produced by `JSON.parse`; numbers keep their literal text
(only "is it a number" matters to the claims, never arithmetic on it). -/
inductive Js where
  | null
  | bool (b : Bool)
  | num (lit : String)
  | str (s : String)
  | arr (elems : List Js)
  | obj (fields : List (String × Js))
deriving Repr

/-- JSON insignificant whitespace. -/
def isJsonWs (c : Char) : Bool :=
  c.toNat = 32 || c.toNat = 9 || c.toNat = 10 || c.toNat = 13

def hexVal (c : Char) : Option Nat :=
  let n := c.toNat
  if 48 ≤ n && n ≤ 57 then some (n - 48)
  else if 65 ≤ n && n ≤ 70 then some (n - 65 + 10)
  else if 97 ≤ n && n ≤ 102 then some (n - 97 + 10)
  else none

/-- Body of a JSON string after the opening quote: returns the decoded
characters and the remaining input after the closing quote. Raw control
characters are rejected; `\uXXXX` escapes decode to the code point
(an unpaired surrogate degrades to the default character, a fidelity
limit that no claim depends on). -/
def parseStrBody : List Char → Option (List Char × List Char)
  | [] => none
  | '"' :: rest => some ([], rest)
  | '\\' :: e :: rest =>
    let simpleEsc : Option Char :=
      if e = '"' then some '"'
      else if e = '\\' then some '\\'
      else if e = '/' then some '/'
      else if e = 'b' then some (Char.ofNat 8)
      else if e = 'f' then some (Char.ofNat 12)
      else if e = 'n' then some '\n'
      else if e = 'r' then some '\r'
      else if e = 't' then some '\t'
      else none
    (match simpleEsc with
     | some c => (parseStrBody rest).map (fun p => (c :: p.1, p.2))
     | none =>
       if e = 'u' then
         match rest with
         | h1 :: h2 :: h3 :: h4 :: rest2 =>
           match hexVal h1, hexVal h2, hexVal h3, hexVal h4 with
           | some a, some b, some c, some d =>
             (parseStrBody rest2).map
               (fun p => (Char.ofNat (((a * 16 + b) * 16 + c) * 16 + d) :: p.1, p.2))
           | _, _, _, _ => none
         | _ => none
       else none)
  | c :: rest =>
    if c.toNat < 32 then none
    else (parseStrBody rest).map (fun p => (c :: p.1, p.2))

/-- Lex a JSON number literal (`-? int frac? exp?`), returning its text. -/
def parseNumLit (cs : List Char) : Option (List Char × List Char) :=
  let (sign, cs1) :=
    match cs with
    | '-' :: t => ([('-' : Char)], t)
    | _ => (([] : List Char), cs)
  match cs1 with
  | [] => none
  | c :: t =>
    if !c.isDigit then none
    else
      let (intPart, rest1) :=
        if c = '0' then ([c], t)
        else (c :: t.takeWhile Char.isDigit, t.dropWhile Char.isDigit)
      let (fracPart, rest2) :=
        match rest1 with
        | '.' :: t2 =>
          if (t2.takeWhile Char.isDigit) = [] then (none, rest1)
          else (some ('.' :: t2.takeWhile Char.isDigit), t2.dropWhile Char.isDigit)
        | _ => (none, rest1)
      match fracPart, rest1 with
      | none, '.' :: _ => none
      | _, _ =>
        let (expPart, rest3) :=
          match rest2 with
          | e :: t3 =>
            if e = 'e' || e = 'E' then
              let (sgn, t4) :=
                match t3 with
                | '+' :: t5 => (['+'], t5)
                | '-' :: t5 => ([('-' : Char)], t5)
                | _ => (([] : List Char), t3)
              if (t4.takeWhile Char.isDigit) = [] then (none, rest2)
              else (some (e :: sgn ++ t4.takeWhile Char.isDigit),
                    t4.dropWhile Char.isDigit)
            else (none, rest2)
          | [] => (none, rest2)
        match expPart, rest2 with
        | none, e :: _ =>
          if e = 'e' || e = 'E' then none
          else some (sign ++ intPart ++ (fracPart.getD []), rest2)
        | none, [] => some (sign ++ intPart ++ (fracPart.getD []), rest2)
        | some ep, _ => some (sign ++ intPart ++ (fracPart.getD []) ++ ep, rest3)

/-- Parser working state: a complete value, or the tail of an array/object
whose already-parsed elements are accumulated in reverse. -/
inductive PMode where
  | value
  | arrTail (acc : List Js)
  | objTail (acc : List (String × Js))

/-- Fuel-indexed recursive-descent JSON parser (the fuel only bounds nesting
depth; `jsonParse` supplies enough for any input). -/
def parseF : Nat → PMode → List Char → Option (Js × List Char)
  | 0, _, _ => none
  | fuel + 1, PMode.value, cs0 =>
    let cs := cs0.dropWhile isJsonWs
    match cs with
    | [] => none
    | c :: rest =>
      if c = '"' then
        (parseStrBody rest).map (fun p => (Js.str (String.mk p.1), p.2))
      else if c = '[' then
        match rest.dropWhile isJsonWs with
        | ']' :: r2 => some (Js.arr [], r2)
        | _ =>
          match parseF fuel PMode.value rest with
          | none => none
          | some (v, r2) => parseF fuel (PMode.arrTail [v]) r2
      else if c = braceOpen then
        match rest.dropWhile isJsonWs with
        | [] => none
        | q :: r2 =>
          if q = braceClose then some (Js.obj [], r2)
          else if q = '"' then
            match parseStrBody r2 with
            | none => none
            | some (key, r3) =>
              match r3.dropWhile isJsonWs with
              | ':' :: r5 =>
                match parseF fuel PMode.value r5 with
                | none => none
                | some (v, r6) =>
                  parseF fuel (PMode.objTail [(String.mk key, v)]) r6
              | _ => none
          else none
      else if c = 't' then
        match rest with
        | 'r' :: 'u' :: 'e' :: r => some (Js.bool true, r)
        | _ => none
      else if c = 'f' then
        match rest with
        | 'a' :: 'l' :: 's' :: 'e' :: r => some (Js.bool false, r)
        | _ => none
      else if c = 'n' then
        match rest with
        | 'u' :: 'l' :: 'l' :: r => some (Js.null, r)
        | _ => none
      else
        match parseNumLit cs with
        | some (lit, r) => some (Js.num (String.mk lit), r)
        | none => none
  | fuel + 1, PMode.arrTail acc, cs0 =>
    match cs0.dropWhile isJsonWs with
    | ']' :: r => some (Js.arr acc.reverse, r)
    | ',' :: r =>
      match parseF fuel PMode.value r with
      | none => none
      | some (v, r2) => parseF fuel (PMode.arrTail (v :: acc)) r2
    | _ => none
  | fuel + 1, PMode.objTail acc, cs0 =>
    match cs0.dropWhile isJsonWs with
    | [] => none
    | c :: r =>
      if c = braceClose then some (Js.obj acc.reverse, r)
      else if c = ',' then
        match r.dropWhile isJsonWs with
        | '"' :: r2 =>
          match parseStrBody r2 with
          | none => none
          | some (key, r3) =>
            match r3.dropWhile isJsonWs with
            | ':' :: r5 =>
              match parseF fuel PMode.value r5 with
              | none => none
              | some (v, r6) => parseF fuel (PMode.objTail ((String.mk key, v) :: acc)) r6
            | _ => none
        | _ => none
      else none

/-- `JSON.parse`: a complete value with only whitespace around it. -/
def jsonParse (text : String) : Option Js :=
  let cs := text.toList
  match parseF (cs.length + 2) PMode.value cs with
  | some (v, rest) => if rest.dropWhile isJsonWs = [] then some v else none
  | none => none

/-- JS property access `payload.exp` on a parsed JSON value (duplicate keys:
the last occurrence wins, as in JS object literals). `payload.exp` on `null`
throws in JS, but that throw is caught by `decodeJwt`'s `try`, so mapping it
to `none` here yields the same observable result. -/
def jsField : Js → String → Option Js
  | Js.obj fields, key => (fields.reverse.find? (fun p => p.1 = key)).map (fun p => p.2)
  | _, _ => none

/-- `typeof payload.exp === "number"`. -/
def jsExpIsNumber (payload : Js) : Bool :=
  match jsField payload "exp" with
  | some (Js.num _) => true
  | _ => false

/-- auth.ts `decodeJwt`: three dot-separated segments, base64url-decode the
middle one, parse it as JSON, require a numeric `exp`; `none` in every other
case (the function's `try` turns every thrown error into `null`). -/
def decodeJwt (token : String) : Option Js :=
  match splitOnChar '.' token.toList with
  | [_, seg1, _] =>
    (atob (base64UrlToBase64 (String.mk seg1))).bind fun jsonString =>
      (jsonParse jsonString).bind fun payload =>
        if jsExpIsNumber payload then some payload else none
  | _ => none

/-! ### API client (src/api.ts)

`requestWithRetry` and `fetchLinkDetail` are modelled over a scripted
"world": `reqs i` answers the i-th `requestUrl` call of the execution and
`refreshes j` answers the j-th invocation of the refresh callback. A JS
error's `status` is a `Nat`, with `0` standing for a transport error whose
`status` is absent/falsy (every use in the source is either a truthiness
test or a comparison against a non-zero literal, so the collapse is exact).
An execution returns the result together with its event trace: each
`requestUrl` call (with the authorization header it carried), each refresh
callback invocation, and each backoff sleep. -/

def MAX_RETRIES : Nat := 3

def BACKOFF_BASE : Nat := 1000

def PAGE_DELAY : Nat := 300

def DETAIL_DELAY : Nat := 200

structure HErr where
  status : Nat
  retryAfter : Option Nat
  tag : Nat := 0
deriving DecidableEq, Repr

structure CBody where
  has_content : Bool
  content : String
deriving DecidableEq, Repr

structure HResp where
  jsonC : Option CBody
  tag : Nat := 0
deriving DecidableEq, Repr

inductive ROutcome where
  | ok (r : HResp)
  | err (e : HErr)
deriving DecidableEq, Repr

structure World where
  reqs : Nat → ROutcome
  refreshes : Nat → Except Nat String

structure Request where
  url : String
  auth : String
deriving DecidableEq, Repr

inductive Cause where
  | http (e : HErr)
  | refresh (rid : Nat)
deriving DecidableEq, Repr

inductive RFail where
  | authFatal (msg : String) (cause : Cause)
  | plain (e : HErr)
deriving DecidableEq, Repr

inductive REvent where
  | call (auth : String)
  | refreshCall
  | sleep (ms : Nat)
deriving DecidableEq, Repr

/-- Backoff delay for one failed attempt: `BACKOFF_BASE * 2^attempt`,
raised to `max (retryAfter * 1000) _` for a 429 with a Retry-After header. -/
def backoffDelay (attempt : Nat) (e : HErr) : Nat :=
  let d := BACKOFF_BASE * 2 ^ attempt
  if e.status = 429 then
    match e.retryAfter with
    | some ra => max (ra * 1000) d
    | none => d
  else d

/-- The attempt loop of api.ts `requestWithRetry`. The fuel equals the number
of loop iterations left (`MAX_RETRIES - attempt`); the fuel-0 branch models
the loop falling off the end, which the guard `attempt = MAX_RETRIES - 1`
makes unreachable from `requestWithRetry`. -/
def requestWithRetryGo (w : World) (params : Request) :
    Nat → Nat → Nat → Nat → Except RFail HResp × List REvent
  | _, _, _, 0 => (Except.error (RFail.plain { status := 0, retryAfter := none }), [])
  | attempt, reqIdx, refIdx, fuel + 1 =>
    match w.reqs reqIdx with
    | ROutcome.ok r => (Except.ok r, [REvent.call params.auth])
    | ROutcome.err e =>
      if e.status = 401 ∨ e.status = 403 then
        -- outer `try`: refresh, rebuild the request, retry once; the outer
        -- `catch` rethrows an AuthFatalError and wraps anything else as
        -- AuthFatalError "JWT refresh failed"
        match w.refreshes refIdx with
        | Except.error rid =>
          (Except.error (RFail.authFatal "JWT refresh failed" (Cause.refresh rid)),
           [REvent.call params.auth, REvent.refreshCall])
        | Except.ok newJwt =>
          let params2 : Request := { params with auth := "Bearer " ++ newJwt }
          let tr := [REvent.call params.auth, REvent.refreshCall,
                     REvent.call params2.auth]
          match w.reqs (reqIdx + 1) with
          | ROutcome.ok r => (Except.ok r, tr)
          | ROutcome.err e2 =>
            if e2.status = 401 ∨ e2.status = 403 then
              (Except.error
                 (RFail.authFatal "Authentication failed after refresh"
                   (Cause.http e2)), tr)
            else
              -- the inner catch rethrows e2 as-is, but that throw is caught
              -- by the OUTER catch, which wraps it (see C2)
              (Except.error
                 (RFail.authFatal "JWT refresh failed" (Cause.http e2)), tr)
      else if 400 ≤ e.status ∧ e.status < 500 ∧ e.status ≠ 429 then
        (Except.error (RFail.plain e), [REvent.call params.auth])
      else if attempt = MAX_RETRIES - 1 then
        (Except.error (RFail.plain e), [REvent.call params.auth])
      else
        let d := backoffDelay attempt e
        let next := requestWithRetryGo w params (attempt + 1) (reqIdx + 1) refIdx fuel
        (next.1, REvent.call params.auth :: REvent.sleep d :: next.2)

/-- api.ts `requestWithRetry`. -/
def requestWithRetry (w : World) (params : Request) :
    Except RFail HResp × List REvent :=
  requestWithRetryGo w params 0 0 0 MAX_RETRIES

def API_BASE : String := "https://get-notes.luojilab.com/voicenotes/web"

/-- The request `fetchLinkDetail` issues for one note. -/
def linkDetailRequest (jwt noteId : String) : Request :=
  { url := API_BASE ++ "/notes/" ++ noteId ++ "/links/detail"
    auth := "Bearer " ++ jwt }

/-- api.ts `fetchLinkDetail`: returns the supplementary content when the
response reports `has_content` with nonempty `content`; returns `none` when
the response reports none, or when the request fails with anything but an
AuthFatalError; propagates an AuthFatalError. -/
def fetchLinkDetail (w : World) (jwt noteId : String) :
    Except RFail (Option String) × List REvent :=
  let r := requestWithRetry w (linkDetailRequest jwt noteId)
  match r.1 with
  | Except.ok resp =>
    match resp.jsonC with
    | some c =>
      if c.has_content && c.content ≠ "" then (Except.ok (some c.content), r.2)
      else (Except.ok none, r.2)
    | none => (Except.ok none, r.2)
  | Except.error f =>
    match f with
    | RFail.authFatal m cz => (Except.error (RFail.authFatal m cz), r.2)
    | RFail.plain _ => (Except.ok none, r.2)

/-- Equality of `Except` results is decidable componentwise. -/
instance {ε α : Type} [DecidableEq ε] [DecidableEq α] : DecidableEq (Except ε α)
  | Except.error x, Except.error y =>
    if h : x = y then isTrue (by rw [h])
    else isFalse (by intro hh; cases hh; exact h rfl)
  | Except.error _, Except.ok _ => isFalse (by intro h; cases h)
  | Except.ok _, Except.error _ => isFalse (by intro h; cases h)
  | Except.ok x, Except.ok y =>
    if h : x = y then isTrue (by rw [h])
    else isFalse (by intro hh; cases hh; exact h rfl)

/-- A world whose requests all fail with the same error and whose refreshes
all fail (handy base for concrete scripts). -/
def constErrWorld (e : HErr) : World :=
  { reqs := fun _ => ROutcome.err e, refreshes := fun _ => Except.error 0 }

/-! ### Sync orchestrator (src/sync.ts `syncBiji`)

The orchestrator is modelled as a deterministic function of:
* the settings snapshot and the initial vault (path ↦ stored `biji_id`
  frontmatter value, a JS `string | null | undefined`),
* the pages the fetcher yields (`fetchNotes` is abstracted by the page list;
  a run ends naturally when the list is exhausted),
* the outcome of the JWT exchange (`refreshJwt` result),
* a per-note detail oracle (what `fetchLinkDetail` returns for a note id),
* the cancellation signal as a predicate on poll ticks: every read of
  `signal.aborted` consumes one tick, in source order (real `AbortSignal`s
  are monotone in time; theorems that need this say so explicitly).

A run produces an event trace (pages fetched, files written, sleeps,
notices, the settings save) and either the final persisted settings or an
AuthFatalError abort. Folder creation and the per-note `console.error` are
host glue and not modelled. A file created during the run enters the vault
with its own `biji_id` (the metadata cache is modelled as up to date). -/

structure SyncSettings where
  refreshToken : String
  targetFolder : String
  lastSyncId : Option String
  lastSyncTime : Option Nat
deriving DecidableEq, Repr

inductive SEvent where
  | fetchPage
  | wrote (id : String) (path : String) (content : String)
  | sleep (ms : Nat)
  | notice (msg : String)
  | saved
deriving DecidableEq, Repr

inductive DetailOutcome where
  | value (v : Option String)
  | authFatal
deriving DecidableEq, Repr

structure SyncCfg where
  targetFolder : String
  silent : Bool
  lastSyncId : Option String
  detail : String → DetailOutcome
  sched : Nat → Bool
  cleanHtml : String → String
  normalizePath : String → String

/-- Loop-local state of `syncBiji` (counters, cursor candidate, flags), plus
the vault and the number of `signal.aborted` reads performed so far. -/
structure PState where
  vault : List (String × Option (Option String))
  syncCount : Nat
  skipCount : Nat
  errorCount : Nat
  newest : Option String
  stop : Bool
  firstPage : Bool
  tick : Nat
deriving Repr

/-- `vault.getAbstractFileByPath` + frontmatter read: `none` = no file;
`some meta` = a file whose stored `biji_id` is the JS value `meta`. -/
def vaultGet (v : List (String × Option (Option String))) (path : String) :
    Option (Option (Option String)) :=
  (v.find? (fun p => p.1 = path)).map (fun p => p.2)

/-- How one note's processing can end. -/
inductive NoteOutcome where
  | skipped
  | fatal
  | collided (evs : List SEvent)
  | created (path : String) (content : String) (evs : List SEvent)
deriving DecidableEq, Repr

/-- Steps 6d–6i of the note loop as a function of the vault and the note:
normalize (`skipped` when the normalizer yields no record), dedup against
the existing file's stored identifier (`skipped` on a match), fetch link
detail (`fatal` on AuthFatalError, with the inter-request sleep after a
successful fetch), build markdown, resolve the final name, create the file
(`collided` when a file already exists at the final path — `vault.create`
throws there — else `created`). -/
def processNoteCore (cfg : SyncCfg)
    (vault : List (String × Option (Option String))) (note : BijiNote) :
    NoteOutcome :=
  match bijiNoteToRawNote cfg.cleanHtml note with
  | none => NoteOutcome.skipped
  | some rn =>
    let baseName := resolveFilename rn.title rn.id none
    let targetPath :=
      cfg.normalizePath (cfg.targetFolder ++ "/" ++ baseName ++ ".md")
    let existing := vaultGet vault targetPath
    let isDedup : Bool :=
      match existing with
      | some meta => meta == some (some note.id)
      | none => false
    if isDedup then NoteOutcome.skipped
    else
      let detailStep : Except Unit (RawNote × List SEvent) :=
        if rn.noteType = "link" then
          match cfg.detail note.id with
          | DetailOutcome.authFatal => Except.error ()
          | DetailOutcome.value lc =>
            let rn2 :=
              if optTruthy lc then
                { rn with originalContent := some (cfg.cleanHtml (lc.getD "")) }
              else rn
            Except.ok (rn2, [SEvent.sleep DETAIL_DELAY])
        else Except.ok (rn, [])
      match detailStep with
      | Except.error () => NoteOutcome.fatal
      | Except.ok (rn2, evs) =>
        let markdown := buildMarkdown rn2
        let finalName :=
          match existing with
          | some meta => resolveFilename rn2.title rn2.id meta
          | none => baseName
        let finalPath :=
          cfg.normalizePath (cfg.targetFolder ++ "/" ++ finalName ++ ".md")
        match vaultGet vault finalPath with
        | some _ => NoteOutcome.collided evs
        | none => NoteOutcome.created finalPath markdown evs

/-- The per-note state transition: apply the outcome to the loop state
(the per-note `try/catch` turns a create-collision into an error count;
an AuthFatalError escapes as `Except.error`). -/
def processNote (cfg : SyncCfg) (st : PState) (note : BijiNote) :
    Except Unit PState × List SEvent :=
  match processNoteCore cfg st.vault note with
  | NoteOutcome.skipped =>
    (Except.ok { st with skipCount := st.skipCount + 1 }, [])
  | NoteOutcome.fatal => (Except.error (), [])
  | NoteOutcome.collided evs =>
    (Except.ok { st with errorCount := st.errorCount + 1 }, evs)
  | NoteOutcome.created path content evs =>
    (Except.ok { st with
        vault := st.vault ++ [(path, some (some note.id))]
        syncCount := st.syncCount + 1 },
     evs ++ [SEvent.wrote note.id path content])

/-- Cursor-candidate capture: on the first page, while no candidate has
been captured, a note with a non-empty identifier becomes the candidate. -/
def captureStep (note : BijiNote) (st : PState) : PState :=
  if st.firstPage = true ∧ st.newest = none ∧ note.id ≠ "" then
    { st with newest := some note.id }
  else st

/-- The inner `for (const note of notes)` loop: abort poll, cursor-candidate
capture, incremental stop condition, then per-note processing with error
isolation. -/
def notesLoop (cfg : SyncCfg) :
    List BijiNote → PState → Except Unit PState × List SEvent
  | [], st => (Except.ok st, [])
  | note :: rest, st =>
    let ab := cfg.sched st.tick
    let st1 := { st with tick := st.tick + 1 }
    if ab then (Except.ok st1, [])
    else
      let st2 := captureStep note st1
      if optTruthy cfg.lastSyncId = true ∧ cfg.lastSyncId = some note.id then
        (Except.ok { st2 with stop := true }, [])
      else
        match processNote cfg st2 note with
        | (Except.error (), evs) => (Except.error (), evs)
        | (Except.ok st3, evs) =>
          let nxt := notesLoop cfg rest st3
          (nxt.1, evs ++ nxt.2)

/-- The `for await (const { notes } of fetchNotes(...))` loop, fused with the
generator: the generator's own abort check, the page fetch, the body's abort
check, the note loop, the stop/abort break (short-circuiting, so the abort
poll is skipped when the stop flag is set), the per-page progress notice,
and the generator's inter-page delay. -/
def pagesLoop (cfg : SyncCfg) :
    List (List BijiNote) → PState → Except Unit PState × List SEvent
  | [], st => (Except.ok st, [])
  | notes :: rest, st =>
    let ab := cfg.sched st.tick
    let st1 := { st with tick := st.tick + 1 }
    if ab then (Except.ok st1, [])
    else
      let ab2 := cfg.sched st1.tick
      let st2 := { st1 with tick := st1.tick + 1 }
      if ab2 then (Except.ok st2, [SEvent.fetchPage])
      else
        match notesLoop cfg notes st2 with
        | (Except.error (), evs) => (Except.error (), SEvent.fetchPage :: evs)
        | (Except.ok st3, evs) =>
          let st4 := { st3 with firstPage := false }
          if st4.stop = true then (Except.ok st4, SEvent.fetchPage :: evs)
          else
            let ab3 := cfg.sched st4.tick
            let st5 := { st4 with tick := st4.tick + 1 }
            if ab3 then (Except.ok st5, SEvent.fetchPage :: evs)
            else
              let evNotice :=
                if cfg.silent then []
                else [SEvent.notice
                  ("Synced " ++ toString st5.syncCount ++ " notes...")]
              let evSleep :=
                if rest.isEmpty then [] else [SEvent.sleep PAGE_DELAY]
              let nxt := pagesLoop cfg rest st5
              (nxt.1, SEvent.fetchPage :: (evs ++ evNotice ++ evSleep ++ nxt.2))

/-- Observable outcome of one `syncBiji` run. On an AuthFatalError abort the
counters are not meaningful (the source loses its locals when it throws);
the trace is always exact. -/
structure SyncRun where
  result : Except Unit SyncSettings
  syncCount : Nat
  skipCount : Nat
  errorCount : Nat
  trace : List SEvent
deriving DecidableEq, Repr

def initPState (vault : List (String × Option (Option String))) : PState :=
  { vault := vault, syncCount := 0, skipCount := 0, errorCount := 0,
    newest := none, stop := false, firstPage := true, tick := 0 }

/-- sync.ts `syncBiji`: validate the refresh token (silent no-op return when
empty), exchange the JWT (failure wrapped as an AuthFatalError abort), drain
the pages, then persist `lastSyncId` (only if a candidate was captured) and
`lastSyncTime`, and emit the summary notice. -/
def syncBiji (settings : SyncSettings)
    (vault : List (String × Option (Option String)))
    (jwtResult : Except Unit String) (pages : List (List BijiNote))
    (silent : Bool) (detail : String → DetailOutcome) (sched : Nat → Bool)
    (now : Nat) (cleanHtml normalizePath : String → String) : SyncRun :=
  match validateRefreshToken settings.refreshToken with
  | some msg =>
    { result := Except.ok settings, syncCount := 0, skipCount := 0,
      errorCount := 0, trace := if silent then [] else [SEvent.notice msg] }
  | none =>
    match jwtResult with
    | Except.error () =>
      { result := Except.error (), syncCount := 0, skipCount := 0,
        errorCount := 0, trace := [] }
    | Except.ok _jwt =>
      let cfg : SyncCfg :=
        { targetFolder := settings.targetFolder, silent := silent,
          lastSyncId := settings.lastSyncId, detail := detail, sched := sched,
          cleanHtml := cleanHtml, normalizePath := normalizePath }
      match pagesLoop cfg pages (initPState vault) with
      | (Except.error (), evs) =>
        { result := Except.error (), syncCount := 0, skipCount := 0,
          errorCount := 0, trace := evs }
      | (Except.ok st, evs) =>
        let settings2 :=
          { settings with
              lastSyncId :=
                if optTruthy st.newest then st.newest else settings.lastSyncId
              lastSyncTime := some now }
        let evSummary :=
          if silent then []
          else if cfg.sched st.tick then
            [SEvent.notice ("Sync cancelled: " ++ toString st.syncCount ++
              " new, " ++ toString st.skipCount ++ " skipped")]
          else
            [SEvent.notice ("Sync complete: " ++ toString st.syncCount ++
              " new, " ++ toString st.skipCount ++ " skipped, " ++
              toString st.errorCount ++ " errors")]
        { result := Except.ok settings2, syncCount := st.syncCount,
          skipCount := st.skipCount, errorCount := st.errorCount,
          trace := evs ++ SEvent.saved :: evSummary }

/-- Note ids written during a trace. -/
def wroteIds (tr : List SEvent) : List String :=
  tr.filterMap (fun e => match e with | SEvent.wrote i _ _ => some i | _ => none)

/-- Number of pages fetched during a trace. -/
def fetchCount (tr : List SEvent) : Nat :=
  (tr.filter (fun e => match e with | SEvent.fetchPage => true | _ => false)).length

/-- Identifier of the first note with a non-empty id in a page. -/
def firstNonEmptyId (notes : List BijiNote) : Option String :=
  (notes.find? (fun n => n.id ≠ "")).map (fun n => n.id)

/-- A minimal concrete wire note for worked examples and witnesses. -/
def mkNote (id : String) : BijiNote :=
  { id := id, title := "T" ++ id, content := "c", body_text := "",
    source := none, note_type := some "plain_text", entry_type := none,
    tags := none, attachments := none, created_at := "2024-01-01",
    updated_at := "2024-01-02" }

def demoSettings : SyncSettings :=
  { refreshToken := "RT", targetFolder := "Biji", lastSyncId := none,
    lastSyncTime := none }

def demoRun : SyncRun :=
  syncBiji demoSettings [] (Except.ok "J") [[mkNote "a", mkNote "b"]] false
    (fun _ => DetailOutcome.value none) (fun _ => false) 99 id id

/-! ### Plugin level (src/main.ts `triggerSync`)

`triggerSync` runs on the host's single JS thread; the `syncing` flag is set
before the first `await` and cleared in `finally`, so its reads/writes are
atomic steps. The process is modelled as a transition system over commands:
a trigger (user- or timer-initiated, with its silent flag) and the
completion of an active run (`finally`). `activeRuns` instruments the number
of `syncBiji` invocations currently between start and `finally`. -/

structure PluginState where
  syncing : Bool
  activeRuns : Nat
  notices : List String
deriving DecidableEq, Repr

inductive PluginCmd where
  | trigger (silent : Bool)
  | finishRun
deriving DecidableEq, Repr

def initPlugin : PluginState :=
  { syncing := false, activeRuns := 0, notices := [] }

/-- main.ts `triggerSync` entry (lines 264–271): while a run is active,
return without starting or queuing another run, with a duplicate-run notice
only when not silent; otherwise set the flag and start a run (start notice
only when not silent). `finishRun` is the `finally` of the active run. -/
def pluginStep (s : PluginState) : PluginCmd → PluginState
  | PluginCmd.trigger silent =>
    if s.syncing then
      if silent then s
      else { s with notices := s.notices ++ ["Sync already in progress"] }
    else
      { s with
          syncing := true
          activeRuns := s.activeRuns + 1
          notices :=
            if silent then s.notices else s.notices ++ ["Syncing Get笔记..."] }
  | PluginCmd.finishRun =>
    if s.syncing then
      { s with syncing := false, activeRuns := s.activeRuns - 1 }
    else s

def pluginRun (cmds : List PluginCmd) : PluginState :=
  cmds.foldl pluginStep initPlugin

/-! ## Claim theorems -/

/-! ### C2 — the 401/403 refresh-and-retry branch -/

/-- Script for C2's failing input: the request fails 401, the refresh
callback succeeds with a new JWT, and the retried request fails 500. -/
def c2World : World :=
  { reqs := fun n =>
      if n = 0 then ROutcome.err { status := 401, retryAfter := none }
      else ROutcome.err { status := 500, retryAfter := none, tag := 5 }
    refreshes := fun _ => Except.ok "J2" }

/-! ### C3 — filename resolution for conflicting files -/

/-- A vault holding one file at the note's candidate path whose frontmatter
has NO `biji_id` field at all (the metadata read yields JS `undefined`). -/
def c3Vault : List (String × Option (Option String)) :=
  [("Biji/My Note.md", none)]

def c3Note : BijiNote := { mkNote "xyz789" with title := "My Note" }

def c3Run : SyncRun :=
  syncBiji demoSettings c3Vault (Except.ok "J") [[c3Note]] true
    (fun _ => DetailOutcome.value none) (fun _ => false) 9 id id

/-! ### C8 — label defaulting in the normalizer -/

/-- A wire note whose note-kind, entry-kind and origin fields are all
absent/null. -/
def c8Note : BijiNote :=
  { mkNote "n1" with note_type := none, entry_type := none, source := none }

/-! ### C9 — at most one active sync run per process -/

def pluginInv (s : PluginState) : Prop :=
  s.activeRuns ≤ 1 ∧ (s.syncing = true ↔ s.activeRuns = 1)

/-! ### C1 — cursor capture counterexample -/

/-- An abort schedule whose signal becomes (and stays) aborted immediately
after the first poll: the generator's initial check passes, the page is
fetched, and the loop body's check then breaks before any note is seen. -/
def c1AbortSched : Nat → Bool := fun n => decide (1 ≤ n)

def c1CancelRun : SyncRun :=
  syncBiji demoSettings [] (Except.ok "J") [[mkNote "a"]] true
    (fun _ => DetailOutcome.value none) c1AbortSched 9 id id

def c1EmptyIdRun : SyncRun :=
  syncBiji demoSettings [] (Except.ok "J")
    [[{ mkNote "z" with id := "" }, mkNote "b"]] true
    (fun _ => DetailOutcome.value none) (fun _ => false) 9 id id

/-! ### C4 — exponential backoff for 429 / 5xx / transport failures -/

/-- A failure in the claim's retryable class: transport error (no status),
429, or any 5xx. -/
def retryableErr (e : HErr) : Prop :=
  e.status = 0 ∨ e.status = 429 ∨ 500 ≤ e.status

/-! ### C6 — detail fetcher degrades to null except for auth-fatal -/

/-- The content the response carries, by the source's truthiness test. -/
def extractContent (resp : HResp) : Option String :=
  match resp.jsonC with
  | some c => if c.has_content && c.content ≠ "" then some c.content else none
  | none => none

/-- Whether the service response reports supplementary content at all. -/
def hasContentFlag (resp : HResp) : Bool :=
  (resp.jsonC.map (fun c => c.has_content)).getD false

/-! ### Observables and helpers for the sync-loop claims (C1, C5, C7) -/

/-- The events a note outcome carries. -/
def noteEvs : NoteOutcome → List SEvent
  | NoteOutcome.skipped => []
  | NoteOutcome.fatal => []
  | NoteOutcome.collided evs => evs
  | NoteOutcome.created _ _ evs => evs

/-- All notes of all pages, in the order the run visits them. -/
def allNotes : List (List BijiNote) → List BijiNote
  | [] => []
  | pg :: rest => pg ++ allNotes rest

/-- Identifiers of the notes strictly before the first occurrence of the
cursor identifier, in visit order. -/
def idsBeforeCursor (c : String) (pages : List (List BijiNote)) : List String :=
  ((allNotes pages).map (fun n => n.id)).takeWhile (fun i => decide (i ≠ c))

/-- Index of the first page containing a note with the given identifier. -/
def firstPageWith (c : String) : List (List BijiNote) → Option Nat
  | [] => none
  | pg :: rest =>
    if pg.any (fun n => decide (n.id = c)) then some 0
    else (firstPageWith c rest).map (fun k => k + 1)

/-- Loop-state observables that ignore `skipCount` and the poll tick
(everything the rest of a run's behaviour can depend on). -/
def obsOf : Except Unit PState →
    Option (List (String × Option (Option String)) × Nat × Nat ×
      Option String × Bool × Bool)
  | Except.ok st =>
    some (st.vault, st.syncCount, st.errorCount, st.newest, st.stop, st.firstPage)
  | Except.error () => none

/-- Two loop states that agree on everything the rest of a run's behaviour
depends on (everything except the skip counter and the poll tick). -/
def eqObs (a b : PState) : Prop :=
  a.vault = b.vault ∧ a.syncCount = b.syncCount ∧ a.errorCount = b.errorCount ∧
  a.newest = b.newest ∧ a.stop = b.stop ∧ a.firstPage = b.firstPage

lemma sanity_1 : decodeJwt "a.eyJleHAiOjF9.c" = some (Js.obj [("exp", Js.num "1")]) := by
  rfl

lemma sanity_2 : decodeJwt "a.eyJleHAiOiJ4In0.c" = none := by rfl

lemma sanity_3 : decodeJwt "eyJleHAiOjF9" = none := by rfl

lemma sanity_4 : decodeJwt "a.!!!.c" = none := by rfl

lemma sanity_5 :
    requestWithRetry (constErrWorld { status := 500, retryAfter := none })
      { url := "u", auth := "Bearer J" } =
    (Except.error (RFail.plain { status := 500, retryAfter := none }),
     [REvent.call "Bearer J", REvent.sleep 1000, REvent.call "Bearer J",
      REvent.sleep 2000, REvent.call "Bearer J"]) := by decide

lemma sanity_6 :
    requestWithRetry
      { reqs := fun n =>
          if n = 0 then ROutcome.err { status := 401, retryAfter := none }
          else ROutcome.ok { jsonC := none, tag := 7 }
        refreshes := fun _ => Except.ok "J2" }
      { url := "u", auth := "Bearer J" } =
    (Except.ok { jsonC := none, tag := 7 },
     [REvent.call "Bearer J", REvent.refreshCall, REvent.call "Bearer J2"]) := by
  decide

lemma sanity_7 : demoRun.syncCount = 2 := by decide

lemma sanity_8 : demoRun.result =
    Except.ok { refreshToken := "RT", targetFolder := "Biji",
                lastSyncId := some "a", lastSyncTime := some 99 } := by decide

lemma sanity_9 : wroteIds demoRun.trace = ["a", "b"] := by decide

lemma sanity_10 : fetchCount demoRun.trace = 1 := by decide

lemma sanity_11 : resolveFilename "My Note" "abc123" none = "My Note" := by decide

lemma sanity_12 : resolveFilename "My Note" "abc123" (some (some "xyz789")) =
    "My Note-abc123" := by decide

lemma sanity_13 : resolveFilename "My Note" "abc123" (some none) = "My Note-abc123" := by
  decide

lemma sanity_14 : sanitizeFilename "hello   world  foo" = "hello world foo" := by decide

lemma sanity_15 : sanitizeFilename "...hidden" = "hidden" := by decide

/-- Claim C2 (code bug evidence): after a 401, the refresh callback is
invoked exactly once and the request is retried exactly once with the new
credential in its authorization header — but when that retry fails with a
status other than 401/403 (here 500), the inner `throw retryErr` is caught
by the OUTER catch and wrapped as `AuthFatalError "JWT refresh failed"`,
instead of being thrown to the caller as-is as the claim states. -/
theorem c2_retry_failure_wrapped :
    requestWithRetry c2World { url := "u", auth := "Bearer J1" } =
      (Except.error (RFail.authFatal "JWT refresh failed"
         (Cause.http { status := 500, retryAfter := none, tag := 5 })),
       [REvent.call "Bearer J1", REvent.refreshCall, REvent.call "Bearer J2"]) := by
  decide

/-- Claim C3 (code bug evidence): an existing file whose stored identifier
differs (including an explicit null) does get the 6-character-suffix name,
but a file with NO stored identifier at all yields JS `undefined`, which
`resolveFilename` treats as "no conflict": the resolved name is the plain
sanitized title (the claim and the unit tests say it is treated as
differing). In the orchestrator this makes the subsequent create collide
with the existing file: the note errors out instead of being written under
a suffixed name. -/
theorem c3_absent_id_not_suffixed :
    resolveFilename "My Note" "xyz789" none = "My Note" ∧
    resolveFilename "My Note" "xyz789" (some none) = "My Note-xyz789" ∧
    resolveFilename "My Note" "xyz789" (some (some "abc")) = "My Note-xyz789" ∧
    resolveFilename "My Note" "xyz789" (some (some "xyz789")) = "My Note" ∧
    c3Run.errorCount = 1 ∧ c3Run.syncCount = 0 ∧ wroteIds c3Run.trace = [] := by
  decide

/-- Claim C8 counterexample: for a note whose entry-kind and origin source
fields are absent, the normalizer leaves the corresponding labels undefined
(`none`) instead of defaulting them — only the note-kind label is
defaulted. -/
theorem c8_counterexample :
    (bijiNoteToRawNote id c8Note).map (fun rn => rn.entryType) = some none ∧
    (bijiNoteToRawNote id c8Note).map (fun rn => rn.origin) = some none ∧
    (bijiNoteToRawNote id c8Note).map (fun rn => rn.noteType) = some "unknown" := by
  decide

/-- Claim C8 (amended): for every raw note with an identifier, the
normalizer defaults the note-kind label to "unknown" when its source field
is absent/null, while the entry-kind and origin labels are passed through
unchanged (each remains absent exactly when its source field is). -/
theorem c8_label_defaults (cleanHtml : String → String) (note : BijiNote)
    (h : note.id ≠ "") :
    (bijiNoteToRawNote cleanHtml note).map (fun rn => rn.noteType) =
      some (note.note_type.getD "unknown") ∧
    (bijiNoteToRawNote cleanHtml note).map (fun rn => rn.entryType) =
      some note.entry_type ∧
    (bijiNoteToRawNote cleanHtml note).map (fun rn => rn.origin) =
      some note.source := by
  simp [bijiNoteToRawNote, h]

/-- Witness for C8: the amended claim evaluated at a concrete note. -/
theorem c8_label_defaults_witness :
    (bijiNoteToRawNote id c8Note).map (fun rn => rn.noteType) =
      some (c8Note.note_type.getD "unknown") ∧
    (bijiNoteToRawNote id c8Note).map (fun rn => rn.entryType) =
      some c8Note.entry_type ∧
    (bijiNoteToRawNote id c8Note).map (fun rn => rn.origin) =
      some c8Note.source :=
  c8_label_defaults id c8Note (by decide)

lemma pluginStep_inv {s : PluginState} (c : PluginCmd) (h : pluginInv s) :
    pluginInv (pluginStep s c) := by
  obtain ⟨h1, h2⟩ := h
  cases c with
  | trigger silent =>
    by_cases hs : s.syncing = true
    · have : s.activeRuns = 1 := h2.mp hs
      simp [pluginStep, hs, pluginInv]
      split_ifs <;> simp_all
    · have h0 : s.activeRuns = 0 := by
        have hne : s.activeRuns ≠ 1 := fun he => hs (h2.mpr he)
        omega
      simp only [pluginStep]
      rw [if_neg hs]
      exact ⟨by simp [h0], by simp [h0, pluginInv]⟩
  | finishRun =>
    by_cases hs : s.syncing = true
    · simp [pluginStep, hs, pluginInv]
      omega
    · simp only [pluginStep]
      rw [if_neg hs]
      exact ⟨h1, h2⟩

lemma pluginRun_inv_aux (cmds : List PluginCmd) (s : PluginState)
    (h : pluginInv s) : pluginInv (cmds.foldl pluginStep s) := by
  induction cmds generalizing s with
  | nil => exact h
  | cons c rest ih => exact ih _ (pluginStep_inv c h)

/-- Claim C9: in every reachable plugin state at most one sync run is
active (`activeRuns ≤ 1`, and the `syncing` flag is set exactly while one
is); a trigger arriving while a run is active starts no new run (the active
count and flag are unchanged), a silent trigger in that situation emits no
notice, and a non-silent one appends exactly the duplicate-run notice. -/
theorem c9_single_active_run (cmds : List PluginCmd) (silent : Bool) :
    (pluginRun cmds).activeRuns ≤ 1 ∧
    ((pluginRun cmds).syncing = true ↔ (pluginRun cmds).activeRuns = 1) ∧
    ((pluginRun cmds).syncing = true →
      (pluginStep (pluginRun cmds) (PluginCmd.trigger silent)).activeRuns =
        (pluginRun cmds).activeRuns ∧
      (pluginStep (pluginRun cmds) (PluginCmd.trigger silent)).syncing = true ∧
      (silent = true →
        (pluginStep (pluginRun cmds) (PluginCmd.trigger silent)).notices =
          (pluginRun cmds).notices) ∧
      (silent = false →
        (pluginStep (pluginRun cmds) (PluginCmd.trigger silent)).notices =
          (pluginRun cmds).notices ++ ["Sync already in progress"])) := by
  have hinv : pluginInv (pluginRun cmds) :=
    pluginRun_inv_aux cmds initPlugin (by constructor <;> simp [initPlugin])
  refine ⟨hinv.1, hinv.2, ?_⟩
  intro hs
  cases silent <;> simp [pluginStep, hs]

/-- Witness for C9 at a concrete command sequence: after a non-silent
trigger a run is active; a silent duplicate trigger adds no notice, a
non-silent one adds exactly the duplicate-run notice, and at most one run
is active. -/
theorem c9_single_active_run_witness :
    (pluginRun [PluginCmd.trigger false]).syncing = true ∧
    (pluginStep (pluginRun [PluginCmd.trigger false]) (PluginCmd.trigger true)).notices =
      (pluginRun [PluginCmd.trigger false]).notices ∧
    (pluginStep (pluginRun [PluginCmd.trigger false]) (PluginCmd.trigger false)).notices =
      (pluginRun [PluginCmd.trigger false]).notices ++ ["Sync already in progress"] ∧
    (pluginRun [PluginCmd.trigger false]).activeRuns ≤ 1 :=
  ⟨by decide,
   ((c9_single_active_run [PluginCmd.trigger false] true).2.2 (by decide)).2.2.1 rfl,
   ((c9_single_active_run [PluginCmd.trigger false] false).2.2 (by decide)).2.2.2 rfl,
   (c9_single_active_run [PluginCmd.trigger false] true).1⟩

/-- Claim C1 counterexample: (i) a run cancelled between the first page
fetch and the first note completes with the cursor UNCHANGED even though
the fetched page contained a note (the claim requires it to equal that
note's identifier, and reserves "unchanged" for runs whose pages held no
notes); (ii) when the first note of the first page has an empty identifier,
the stored cursor is the SECOND note's identifier, not the first note's. -/
theorem c1_counterexample :
    c1CancelRun.result = Except.ok { demoSettings with lastSyncTime := some 9 } ∧
    fetchCount c1CancelRun.trace = 1 ∧
    c1EmptyIdRun.result = Except.ok
      { demoSettings with lastSyncId := some "b", lastSyncTime := some 9 } := by
  decide

lemma requestWithRetryGo_retry_step (w : World) (params : Request)
    (attempt reqIdx refIdx fuel : Nat) (e : HErr)
    (hreq : w.reqs reqIdx = ROutcome.err e) (hr : retryableErr e)
    (hlast : attempt ≠ MAX_RETRIES - 1) :
    requestWithRetryGo w params attempt reqIdx refIdx (fuel + 1) =
      ((requestWithRetryGo w params (attempt + 1) (reqIdx + 1) refIdx fuel).1,
       REvent.call params.auth :: REvent.sleep (backoffDelay attempt e) ::
         (requestWithRetryGo w params (attempt + 1) (reqIdx + 1) refIdx fuel).2) := by
  unfold retryableErr at hr
  simp only [requestWithRetryGo, hreq]
  split_ifs with hA hB
  · omega
  · omega
  · rfl

lemma requestWithRetryGo_last (w : World) (params : Request)
    (attempt reqIdx refIdx fuel : Nat) (e : HErr)
    (hreq : w.reqs reqIdx = ROutcome.err e) (hr : retryableErr e)
    (hlast : attempt = MAX_RETRIES - 1) :
    requestWithRetryGo w params attempt reqIdx refIdx (fuel + 1) =
      (Except.error (RFail.plain e), [REvent.call params.auth]) := by
  unfold retryableErr at hr
  simp only [requestWithRetryGo, hreq]
  split_ifs with hA hB
  · omega
  · omega
  · rfl

/-- Claim C4: a request whose three attempts all fail retryably (429, 5xx,
or no status) is attempted exactly three times with the same authorization
header, no refresh, and backoff sleeps `backoffDelay 0 e0` and
`backoffDelay 1 e1` between attempts, and the third failure is propagated
unchanged; the delay is `BACKOFF_BASE * 2^attempt`, raised for a 429 to the
maximum with 1000 × the Retry-After value when present, so three straight
500s wait a cumulative `BACKOFF_BASE * (1 + 2)`. -/
theorem c4_retry_backoff (w : World) (params : Request) (e0 e1 e2 : HErr)
    (h0 : w.reqs 0 = ROutcome.err e0) (h1 : w.reqs 1 = ROutcome.err e1)
    (h2 : w.reqs 2 = ROutcome.err e2)
    (hr0 : retryableErr e0) (hr1 : retryableErr e1) (hr2 : retryableErr e2) :
    requestWithRetry w params =
      (Except.error (RFail.plain e2),
       [REvent.call params.auth, REvent.sleep (backoffDelay 0 e0),
        REvent.call params.auth, REvent.sleep (backoffDelay 1 e1),
        REvent.call params.auth]) ∧
    (∀ i e, retryableErr e → e.status ≠ 429 →
      backoffDelay i e = BACKOFF_BASE * 2 ^ i) ∧
    (∀ i e ra, e.status = 429 → e.retryAfter = some ra →
      backoffDelay i e = max (ra * 1000) (BACKOFF_BASE * 2 ^ i)) ∧
    (e0.status = 500 → e1.status = 500 →
      backoffDelay 0 e0 + backoffDelay 1 e1 = BACKOFF_BASE * (1 + 2)) := by
  refine ⟨?_, ?_, ?_, ?_⟩
  · have step1 := requestWithRetryGo_retry_step w params 0 0 0 2 e0 h0 hr0 (by decide)
    have step2 := requestWithRetryGo_retry_step w params 1 1 0 1 e1 h1 hr1 (by decide)
    have step3 := requestWithRetryGo_last w params 2 2 0 0 e2 h2 hr2 (by decide)
    have efuel : (2 : Nat) + 1 = 3 := rfl
    rw [efuel] at step1
    have efuel2 : (1 : Nat) + 1 = 2 := rfl
    rw [efuel2] at step2
    have efuel3 : (0 : Nat) + 1 = 1 := rfl
    rw [efuel3] at step3
    show requestWithRetryGo w params 0 0 0 3 = _
    rw [step1, step2, step3]
  · intro i e hre h429
    unfold backoffDelay
    rw [if_neg h429]
  · intro i e ra h429 hra
    unfold backoffDelay
    rw [if_pos h429, hra]
  · intro h500a h500b
    unfold backoffDelay
    rw [if_neg (by omega), if_neg (by omega)]
    decide

/-- Witness for C4: three straight 500s at a concrete script surface the
final 500 unchanged after sleeps of 1000 ms and 2000 ms. -/
theorem c4_retry_backoff_witness :
    requestWithRetry (constErrWorld { status := 500, retryAfter := none })
      { url := "u", auth := "Bearer J" } =
      (Except.error (RFail.plain { status := 500, retryAfter := none }),
       [REvent.call "Bearer J", REvent.sleep 1000, REvent.call "Bearer J",
        REvent.sleep 2000, REvent.call "Bearer J"]) ∧
    (1000 : Nat) + 2000 = BACKOFF_BASE * (1 + 2) :=
  ⟨(c4_retry_backoff (constErrWorld { status := 500, retryAfter := none })
      { url := "u", auth := "Bearer J" } _ _ _ rfl rfl rfl
      (Or.inr (Or.inr (by decide))) (Or.inr (Or.inr (by decide)))
      (Or.inr (Or.inr (by decide)))).1,
   by decide⟩

/-- Claim C6: for every call, the detail fetcher propagates an AuthFatalError
from the underlying request; returns null on any other request failure; and
on a successful request returns exactly the extracted content — in
particular null whenever the service reports no supplementary content. -/
theorem c6_fetchLinkDetail (w : World) (jwt noteId : String) :
    (∀ m cz tr,
      requestWithRetry w (linkDetailRequest jwt noteId) =
        (Except.error (RFail.authFatal m cz), tr) →
      fetchLinkDetail w jwt noteId = (Except.error (RFail.authFatal m cz), tr)) ∧
    (∀ e tr,
      requestWithRetry w (linkDetailRequest jwt noteId) =
        (Except.error (RFail.plain e), tr) →
      fetchLinkDetail w jwt noteId = (Except.ok none, tr)) ∧
    (∀ resp tr,
      requestWithRetry w (linkDetailRequest jwt noteId) = (Except.ok resp, tr) →
      fetchLinkDetail w jwt noteId = (Except.ok (extractContent resp), tr) ∧
      (hasContentFlag resp = false → extractContent resp = none)) := by
  refine ⟨?_, ?_, ?_⟩
  · intro m cz tr h
    unfold fetchLinkDetail
    rw [h]
  · intro e tr h
    unfold fetchLinkDetail
    rw [h]
  · intro resp tr h
    constructor
    · unfold fetchLinkDetail
      rw [h]
      cases hj : resp.jsonC with
      | none => simp [extractContent, hj]
      | some c =>
        simp only [extractContent, hj]
        split_ifs <;> rfl
    · intro hf
      cases hj : resp.jsonC with
      | none => simp [extractContent, hj]
      | some c =>
        have : c.has_content = false := by
          simpa [hasContentFlag, hj] using hf
        simp [extractContent, hj, this]

/-- Witness for C6: a script whose three attempts all fail with 500 makes
the detail fetcher return null with the executor's trace. -/
theorem c6_fetchLinkDetail_witness :
    fetchLinkDetail (constErrWorld { status := 500, retryAfter := none }) "J" "n1" =
      (Except.ok none,
       [REvent.call "Bearer J", REvent.sleep 1000, REvent.call "Bearer J",
        REvent.sleep 2000, REvent.call "Bearer J"]) :=
  (c6_fetchLinkDetail (constErrWorld { status := 500, retryAfter := none })
    "J" "n1").2.1 { status := 500, retryAfter := none } _ (by decide)

/-! ### C10 — decodeJwt is total and returns a payload exactly when valid -/

/-- Claim C10: `decodeJwt` never throws (it is a total function into
`Option`), and it returns a payload exactly when the token has three
dot-separated segments whose middle segment base64url-decodes (convert,
pad, forgiving `atob`) to a string that parses as JSON with a numeric
`exp` field — the returned payload being that parsed JSON value; in every
other case (wrong segment count, undecodable base64, unparsable JSON,
non-numeric or missing `exp`) it returns null. -/
theorem c10_decodeJwt_characterization (token : String) (p : Js) :
    decodeJwt token = some p ↔
      ∃ s0 s1 s2 dec,
        splitOnChar '.' token.toList = [s0, s1, s2] ∧
        atob (base64UrlToBase64 (String.mk s1)) = some dec ∧
        jsonParse dec = some p ∧ jsExpIsNumber p = true := by
  unfold decodeJwt
  cases hs : splitOnChar '.' token.toList with
  | nil => simp [hs]
  | cons a t =>
    cases t with
    | nil => simp [hs]
    | cons b t2 =>
      cases t2 with
      | nil => simp [hs]
      | cons c t3 =>
        cases t3 with
        | nil =>
          simp only [hs, Option.bind_eq_some, Option.ite_none_right_eq_some,
            Option.some.injEq, List.cons.injEq, and_true, List.cons_ne_nil]
          constructor
          · rintro ⟨dec, hdec, payload, hpay, hnum, hpq⟩
            subst hpq
            exact ⟨a, b, c, dec, ⟨rfl, rfl, rfl⟩, hdec, hpay, hnum⟩
          · rintro ⟨s0, s1, s2, dec, ⟨h0, h1, h2⟩, hdec, hpay, hnum⟩
            subst h1
            exact ⟨dec, hdec, p, hpay, hnum, rfl⟩
        | cons d t4 => simp [hs]

/-- Witness for C10: a concrete well-formed token decodes to its payload
(the middle segment is base64url for the JSON object with numeric exp 1). -/
theorem c10_decodeJwt_witness :
    decodeJwt "a.eyJleHAiOjF9.c" = some (Js.obj [("exp", Js.num "1")]) :=
  (c10_decodeJwt_characterization "a.eyJleHAiOjF9.c"
    (Js.obj [("exp", Js.num "1")])).mpr
    ⟨"a".toList, "eyJleHAiOjF9".toList, "c".toList, "\x7b\"exp\":1\x7d",
     by rfl, by rfl, by rfl, by rfl⟩

/-! ### Sync-loop lemmas (towards C1, C5, C7) -/

lemma processNoteCore_evs (cfg : SyncCfg)
    (vault : List (String × Option (Option String))) (note : BijiNote) :
    ∀ e ∈ noteEvs (processNoteCore cfg vault note), ∃ ms, e = SEvent.sleep ms := by
  unfold processNoteCore
  cases hn : bijiNoteToRawNote cfg.cleanHtml note with
  | none => simp [noteEvs]
  | some rn =>
    dsimp only
    split_ifs with hd hlink
    · simp [noteEvs]
    · cases hdet : cfg.detail note.id with
      | authFatal => simp [noteEvs]
      | value lc =>
        dsimp only
        split <;> simp [noteEvs]
    · split
      · rename_i heq
        cases heq
      · rename_i rn2 evs heq
        injection heq with hpair
        injection hpair with h1 h2
        subst h2
        split <;> simp [noteEvs]

lemma processNote_evs (cfg : SyncCfg) (st : PState) (note : BijiNote)
    (r : Except Unit PState) (evs : List SEvent)
    (h : processNote cfg st note = (r, evs)) :
    (∀ e ∈ evs, (∃ ms, e = SEvent.sleep ms) ∨
       ∃ path ct, e = SEvent.wrote note.id path ct) ∧
    (∀ st', r = Except.ok st' →
      st'.newest = st.newest ∧ st'.stop = st.stop ∧
      st'.firstPage = st.firstPage ∧ st'.tick = st.tick) := by
  have hevs := processNoteCore_evs cfg st.vault note
  unfold processNote at h
  cases ho : processNoteCore cfg st.vault note with
  | skipped =>
    rw [ho] at h
    obtain ⟨hr, hevs'⟩ := Prod.mk.injEq .. ▸ h
    subst hr hevs'
    refine ⟨by simp, ?_⟩
    intro st' h'
    cases h'
    exact ⟨rfl, rfl, rfl, rfl⟩
  | fatal =>
    rw [ho] at h
    obtain ⟨hr, hevs'⟩ := Prod.mk.injEq .. ▸ h
    subst hr hevs'
    exact ⟨by simp, by intro st' h'; cases h'⟩
  | collided evs0 =>
    rw [ho] at h
    obtain ⟨hr, hevs'⟩ := Prod.mk.injEq .. ▸ h
    subst hr hevs'
    rw [ho] at hevs
    refine ⟨?_, ?_⟩
    · intro e he
      exact Or.inl (hevs e he)
    · intro st' h'
      cases h'
      exact ⟨rfl, rfl, rfl, rfl⟩
  | created path ct evs0 =>
    rw [ho] at h
    obtain ⟨hr, hevs'⟩ := Prod.mk.injEq .. ▸ h
    subst hr hevs'
    rw [ho] at hevs
    refine ⟨?_, ?_⟩
    · intro e he
      rcases List.mem_append.mp he with h1 | h1
      · exact Or.inl (hevs e h1)
      · rcases List.mem_singleton.mp h1 with rfl
        exact Or.inr ⟨path, ct, rfl⟩
    · intro st' h'
      cases h'
      exact ⟨rfl, rfl, rfl, rfl⟩

lemma captureStep_fields (note : BijiNote) (st : PState) :
    (captureStep note st).vault = st.vault ∧
    (captureStep note st).syncCount = st.syncCount ∧
    (captureStep note st).skipCount = st.skipCount ∧
    (captureStep note st).errorCount = st.errorCount ∧
    (captureStep note st).stop = st.stop ∧
    (captureStep note st).firstPage = st.firstPage ∧
    (captureStep note st).tick = st.tick := by
  unfold captureStep
  split <;> simp

lemma captureStep_of_cap {note : BijiNote} {st : PState}
    (h : st.firstPage = true ∧ st.newest = none ∧ note.id ≠ "") :
    (captureStep note st).newest = some note.id := by
  unfold captureStep
  rw [if_pos h]

lemma captureStep_of_not {note : BijiNote} {st : PState}
    (h : ¬(st.firstPage = true ∧ st.newest = none ∧ note.id ≠ "")) :
    (captureStep note st).newest = st.newest := by
  unfold captureStep
  rw [if_neg h]

lemma firstNonEmptyId_cons_ne (n : BijiNote) (l : List BijiNote)
    (h : n.id ≠ "") : firstNonEmptyId (n :: l) = some n.id := by
  simp [firstNonEmptyId, List.find?_cons_of_pos, h]

lemma firstNonEmptyId_cons_eq (n : BijiNote) (l : List BijiNote)
    (h : n.id = "") : firstNonEmptyId (n :: l) = firstNonEmptyId l := by
  simp [firstNonEmptyId, List.find?_cons_of_neg, h]

lemma notesLoop_obs (cfg : SyncCfg) (notes : List BijiNote) :
    ∀ (st : PState) (r : Except Unit PState) (evs : List SEvent),
      notesLoop cfg notes st = (r, evs) →
      (∀ e ∈ evs, (∃ ms, e = SEvent.sleep ms) ∨
         ∃ i path ct, e = SEvent.wrote i path ct ∧
           i ∈ notes.map (fun n => n.id)) ∧
      (∀ st', r = Except.ok st' →
        st'.firstPage = st.firstPage ∧
        st.tick ≤ st'.tick ∧
        (st'.stop = st.stop ∨ ∃ n ∈ notes, cfg.lastSyncId = some n.id) ∧
        (∀ x, st.newest = some x → st'.newest = some x) ∧
        (st.firstPage = false → st'.newest = st.newest) ∧
        (st.firstPage = true → st.newest = none →
          st'.newest = none ∨ st'.newest = firstNonEmptyId notes) ∧
        ((∀ n, cfg.sched n = false) → st.firstPage = true → st.newest = none →
          st'.newest = firstNonEmptyId notes)) := by
  induction notes with
  | nil =>
    intro st r evs h
    simp only [notesLoop] at h
    obtain ⟨hr, hevs⟩ := Prod.mk.injEq .. ▸ h
    subst hr hevs
    refine ⟨by simp, ?_⟩
    intro st' h'
    injection h' with h''
    subst h''
    exact ⟨rfl, Nat.le_refl _, Or.inl rfl, fun x hx => hx, fun _ => rfl,
      fun _ hn => Or.inl hn,
      fun _ _ hn => by rw [hn]; simp [firstNonEmptyId]⟩
  | cons note rest ih =>
    intro st r evs h
    simp only [notesLoop] at h
    by_cases hab : cfg.sched st.tick = true
    · rw [if_pos hab] at h
      obtain ⟨hr, hevs⟩ := Prod.mk.injEq .. ▸ h
      subst hr hevs
      refine ⟨by simp, ?_⟩
      intro st' h'
      injection h' with h''
      subst h''
      exact ⟨rfl, Nat.le_succ _, Or.inl rfl, fun x hx => hx, fun _ => rfl,
        fun _ hn => Or.inl hn,
        fun hs _ _ => absurd hab (by simp [hs])⟩
    · rw [if_neg hab] at h
      by_cases hstop : optTruthy cfg.lastSyncId = true ∧ cfg.lastSyncId = some note.id
      · rw [if_pos hstop] at h
        obtain ⟨hr, hevs⟩ := Prod.mk.injEq .. ▸ h
        subst hr hevs
        have hidne : note.id ≠ "" := by
          intro hid
          have hopt : optTruthy cfg.lastSyncId = false := by
            rw [hstop.2, hid]
            simp [optTruthy]
          rw [hopt] at hstop
          exact Bool.false_ne_true hstop.1
        obtain ⟨_, _, _, _, hsp2, hfp2, htk2⟩ :=
          captureStep_fields note { st with tick := st.tick + 1 }
        refine ⟨by simp, ?_⟩
        intro st' h'
        injection h' with h''
        subst h''
        refine ⟨hfp2, ?_, Or.inr ⟨note, by simp, hstop.2⟩, ?_, ?_, ?_, ?_⟩
        · show st.tick ≤ (captureStep note { st with tick := st.tick + 1 }).tick
          rw [htk2]
          exact Nat.le_succ _
        · intro x hx
          show (captureStep note { st with tick := st.tick + 1 }).newest = some x
          rw [captureStep_of_not fun hc => by
            have := hc.2.1
            dsimp at this
            rw [hx] at this
            cases this]
          exact hx
        · intro hfp
          show (captureStep note { st with tick := st.tick + 1 }).newest = st.newest
          rw [captureStep_of_not fun hc => by
            have := hc.1
            dsimp at this
            rw [hfp] at this
            cases this]
        · intro hfp hn
          right
          show (captureStep note { st with tick := st.tick + 1 }).newest =
            firstNonEmptyId (note :: rest)
          rw [captureStep_of_cap ⟨by dsimp; exact hfp, by dsimp; exact hn, hidne⟩,
            firstNonEmptyId_cons_ne note rest hidne]
        · intro _ hfp hn
          show (captureStep note { st with tick := st.tick + 1 }).newest =
            firstNonEmptyId (note :: rest)
          rw [captureStep_of_cap ⟨by dsimp; exact hfp, by dsimp; exact hn, hidne⟩,
            firstNonEmptyId_cons_ne note rest hidne]
      · rw [if_neg hstop] at h
        obtain ⟨_, _, _, _, hsp2, hfp2, htk2⟩ :=
          captureStep_fields note { st with tick := st.tick + 1 }
        cases hpn : processNote cfg (captureStep note { st with tick := st.tick + 1 }) note with
        | mk r0 evs0 =>
          rw [hpn] at h
          obtain ⟨PE1, PE2⟩ :=
            processNote_evs cfg (captureStep note { st with tick := st.tick + 1 })
              note r0 evs0 hpn
          cases r0 with
          | error u =>
            cases u
            obtain ⟨hr, hevs⟩ := Prod.mk.injEq .. ▸ h
            subst hr hevs
            refine ⟨?_, ?_⟩
            · intro e he
              rcases PE1 e he with hs | ⟨path, ct, hw⟩
              · exact Or.inl hs
              · exact Or.inr ⟨note.id, path, ct, hw, by simp⟩
            · intro st' h'
              cases h'
          | ok st3 =>
            obtain ⟨hnw3, hsp3, hfp3, htk3⟩ := PE2 st3 rfl
            obtain ⟨hr, hevs⟩ := Prod.mk.injEq .. ▸ h
            subst hr hevs
            obtain ⟨IH1, IH2⟩ := ih st3 (notesLoop cfg rest st3).1
              (notesLoop cfg rest st3).2 rfl
            refine ⟨?_, ?_⟩
            · intro e he
              rcases List.mem_append.mp he with h1 | h1
              · rcases PE1 e h1 with hs | ⟨path, ct, hw⟩
                · exact Or.inl hs
                · exact Or.inr ⟨note.id, path, ct, hw, by simp⟩
              · rcases IH1 e h1 with hs | ⟨i, path, ct, hw, hi⟩
                · exact Or.inl hs
                · exact Or.inr ⟨i, path, ct, hw, List.mem_cons_of_mem _ hi⟩
            · intro st' h'
              obtain ⟨ifp, itk, istp, ipres, ifpf, ipre, iex⟩ := IH2 st' h'
              have hfp3' : st3.firstPage = st.firstPage := by
                rw [hfp3, hfp2]
              have htk3' : st3.tick = st.tick + 1 := by
                rw [htk3, htk2]
              have hsp3' : st3.stop = st.stop := by
                rw [hsp3, hsp2]
              refine ⟨?_, ?_, ?_, ?_, ?_, ?_, ?_⟩
              · rw [ifp, hfp3']
              · omega
              · rcases istp with hl | ⟨n, hn, hid⟩
                · exact Or.inl (by rw [hl, hsp3'])
                · exact Or.inr ⟨n, List.mem_cons_of_mem _ hn, hid⟩
              · intro x hx
                refine ipres x ?_
                rw [hnw3, captureStep_of_not fun hc => by
                  have := hc.2.1
                  dsimp at this
                  rw [hx] at this
                  cases this]
                exact hx
              · intro hfp
                have h3n : st3.newest = st.newest := by
                  rw [hnw3, captureStep_of_not fun hc => by
                    have := hc.1
                    dsimp at this
                    rw [hfp] at this
                    cases this]
                rw [← h3n]
                exact ifpf (by rw [hfp3', hfp])
              · intro hfp hn
                by_cases hid : note.id = ""
                · have h3n : st3.newest = none := by
                    rw [hnw3, captureStep_of_not fun hc => absurd hid hc.2.2, hn]
                  rcases ipre (by rw [hfp3', hfp]) h3n with hl | hrr
                  · exact Or.inl hl
                  · exact Or.inr (by rw [hrr, firstNonEmptyId_cons_eq note rest hid])
                · have h3n : st3.newest = some note.id := by
                    rw [hnw3, captureStep_of_cap ⟨by dsimp; exact hfp, by dsimp; exact hn, hid⟩]
                  exact Or.inr (by
                    rw [ipres note.id h3n, firstNonEmptyId_cons_ne note rest hid])
              · intro hs hfp hn
                by_cases hid : note.id = ""
                · have h3n : st3.newest = none := by
                    rw [hnw3, captureStep_of_not fun hc => absurd hid hc.2.2, hn]
                  rw [iex hs (by rw [hfp3', hfp]) h3n,
                    firstNonEmptyId_cons_eq note rest hid]
                · have h3n : st3.newest = some note.id := by
                    rw [hnw3, captureStep_of_cap ⟨by dsimp; exact hfp, by dsimp; exact hn, hid⟩]
                  rw [ipres note.id h3n, firstNonEmptyId_cons_ne note rest hid]

lemma firstNonEmptyId_ne_empty (notes : List BijiNote) (x : String)
    (h : firstNonEmptyId notes = some x) : x ≠ "" := by
  unfold firstNonEmptyId at h
  rcases Option.map_eq_some'.mp h with ⟨n, hfind, hid⟩
  have := List.find?_some hfind
  simp at this
  rw [← hid]
  exact this

lemma pagesLoop_obs (cfg : SyncCfg) (pages : List (List BijiNote)) :
    ∀ (st : PState) (r : Except Unit PState) (evs : List SEvent),
      pagesLoop cfg pages st = (r, evs) →
      (∀ e ∈ evs, e ≠ SEvent.saved) ∧
      (∀ st', r = Except.ok st' →
        (∀ x, st.newest = some x → st'.newest = some x) ∧
        (st.firstPage = false → st'.newest = st.newest) ∧
        (st.firstPage = true → st.newest = none →
          st'.newest = none ∨ st'.newest = firstNonEmptyId (pages.headD [])) ∧
        ((∀ n, cfg.sched n = false) → st.firstPage = true → st.newest = none →
          st'.newest = firstNonEmptyId (pages.headD []))) := by
  induction pages with
  | nil =>
    intro st r evs h
    simp only [pagesLoop] at h
    obtain ⟨hr, hevs⟩ := Prod.mk.injEq .. ▸ h
    subst hr hevs
    refine ⟨by simp, ?_⟩
    intro st' h'
    injection h' with h''
    subst h''
    exact ⟨fun x hx => hx, fun _ => rfl, fun _ hn => Or.inl hn,
      fun _ _ hn => by rw [hn]; simp [firstNonEmptyId]⟩
  | cons pg rest ih =>
    intro st r evs h
    simp only [pagesLoop] at h
    by_cases hab : cfg.sched st.tick = true
    · rw [if_pos hab] at h
      obtain ⟨hr, hevs⟩ := Prod.mk.injEq .. ▸ h
      subst hr hevs
      refine ⟨by simp, ?_⟩
      intro st' h'
      injection h' with h''
      subst h''
      exact ⟨fun x hx => hx, fun _ => rfl, fun _ hn => Or.inl hn,
        fun hs _ _ => absurd hab (by simp [hs])⟩
    · rw [if_neg hab] at h
      by_cases hab2 : cfg.sched (st.tick + 1) = true
      · rw [if_pos hab2] at h
        obtain ⟨hr, hevs⟩ := Prod.mk.injEq .. ▸ h
        subst hr hevs
        refine ⟨by simp, ?_⟩
        intro st' h'
        injection h' with h''
        subst h''
        exact ⟨fun x hx => hx, fun _ => rfl, fun _ hn => Or.inl hn,
          fun hs _ _ => absurd hab2 (by simp [hs])⟩
      · rw [if_neg hab2] at h
        cases hnl : notesLoop cfg pg
            { { st with tick := st.tick + 1 } with
                tick := { st with tick := st.tick + 1 }.tick + 1 } with
        | mk rn evsn =>
          rw [hnl] at h
          obtain ⟨NL1, NL2⟩ := notesLoop_obs cfg pg _ rn evsn hnl
          cases rn with
          | error u =>
            cases u
            obtain ⟨hr, hevs⟩ := Prod.mk.injEq .. ▸ h
            subst hr hevs
            refine ⟨?_, ?_⟩
            · intro e he
              rcases List.mem_cons.mp he with rfl | h1
              · simp
              · rcases NL1 e h1 with ⟨ms, rfl⟩ | ⟨i, path, ct, rfl, _⟩ <;> simp
            · intro st' h'
              cases h'
          | ok st3 =>
            dsimp only at h
            obtain ⟨nfp, ntk, nstp, npres, nfpf, npre, nex⟩ := NL2 st3 rfl
            have hpres : ∀ x, st.newest = some x → st3.newest = some x := npres
            have hfpf : st.firstPage = false → st3.newest = st.newest := nfpf
            have hpre : st.firstPage = true → st.newest = none →
                st3.newest = none ∨ st3.newest = firstNonEmptyId pg := npre
            have hex : (∀ n, cfg.sched n = false) → st.firstPage = true →
                st.newest = none → st3.newest = firstNonEmptyId pg := nex
            by_cases hstop : st3.stop = true
            · rw [if_pos hstop] at h
              obtain ⟨hr, hevs⟩ := Prod.mk.injEq .. ▸ h
              subst hr hevs
              refine ⟨?_, ?_⟩
              · intro e he
                rcases List.mem_cons.mp he with rfl | h1
                · simp
                · rcases NL1 e h1 with ⟨ms, rfl⟩ | ⟨i, path, ct, rfl, _⟩ <;> simp
              · intro st' h'
                injection h' with h''
                subst h''
                refine ⟨fun x hx => hpres x hx, fun hf => hfpf hf, ?_, ?_⟩
                · intro hfp hn
                  have := hpre hfp hn
                  simpa using this
                · intro hs hfp hn
                  have := hex hs hfp hn
                  simpa using this
            · rw [if_neg hstop] at h
              by_cases hab3 : cfg.sched st3.tick = true
              · rw [if_pos hab3] at h
                obtain ⟨hr, hevs⟩ := Prod.mk.injEq .. ▸ h
                subst hr hevs
                refine ⟨?_, ?_⟩
                · intro e he
                  rcases List.mem_cons.mp he with rfl | h1
                  · simp
                  · rcases NL1 e h1 with ⟨ms, rfl⟩ | ⟨i, path, ct, rfl, _⟩ <;> simp
                · intro st' h'
                  injection h' with h''
                  subst h''
                  refine ⟨fun x hx => hpres x hx, fun hf => hfpf hf, ?_, ?_⟩
                  · intro hfp hn
                    have := hpre hfp hn
                    simpa using this
                  · intro hs hfp hn
                    exact absurd hab3 (by simp [hs])
              · rw [if_neg hab3] at h
                cases hpl : pagesLoop cfg rest
                    { { st3 with firstPage := false } with
                        tick := ({ st3 with firstPage := false }).tick + 1 } with
                | mk rr evsr =>
                  rw [hpl] at h
                  obtain ⟨PL1, PL2⟩ := ih _ rr evsr hpl
                  obtain ⟨hr, hevs⟩ := Prod.mk.injEq .. ▸ h
                  subst hr hevs
                  refine ⟨?_, ?_⟩
                  · intro e he
                    simp only [List.mem_cons, List.mem_append, or_assoc] at he
                    rcases he with rfl | he | he | he | he
                    · simp
                    · rcases NL1 e he with ⟨ms, rfl⟩ | ⟨i, path, ct, rfl, _⟩ <;> simp
                    · revert he
                      split_ifs <;> intro he
                      · cases he
                      · rcases List.mem_singleton.mp he with rfl
                        simp
                    · revert he
                      split_ifs <;> intro he
                      · cases he
                      · rcases List.mem_singleton.mp he with rfl
                        simp
                    · exact PL1 e he
                  · intro st' h'
                    obtain ⟨rpres, rfpf, _, _⟩ := PL2 st' h'
                    have hrn : st'.newest = st3.newest := rfpf rfl
                    refine ⟨?_, ?_, ?_, ?_⟩
                    · intro x hx
                      rw [hrn]
                      exact hpres x hx
                    · intro hf
                      rw [hrn]
                      exact hfpf hf
                    · intro hfp hn
                      rw [hrn]
                      have := hpre hfp hn
                      simpa using this
                    · intro hs hfp hn
                      rw [hrn]
                      have := hex hs hfp hn
                      simpa using this

/-- Claim C1 (amended): for every sync run that proceeds past credential
validation and completes (including cancellation): the last-sync timestamp
is updated to the completion time; the stored cursor is either unchanged or
equal to the identifier of the first note with a non-empty identifier on
the first fetched page (so it is captured at most once and never
overwritten by any later note); a run that is never cancelled stores
exactly that identifier, or leaves the cursor unchanged when no fetched
page contains a note with a non-empty identifier; and the settings are
persisted exactly once, after the page loop ends — never mid-run (only
summary notices follow the save). -/
theorem c1_cursor_amended (settings : SyncSettings)
    (vault : List (String × Option (Option String))) (jwt : String)
    (pages : List (List BijiNote)) (silent : Bool)
    (detail : String → DetailOutcome) (sched : Nat → Bool) (now : Nat)
    (ch np : String → String) (s' : SyncSettings)
    (htok : settings.refreshToken ≠ "")
    (hok : (syncBiji settings vault (Except.ok jwt) pages silent detail sched
        now ch np).result = Except.ok s') :
    s'.lastSyncTime = some now ∧
    (s'.lastSyncId = settings.lastSyncId ∨
      s'.lastSyncId = firstNonEmptyId (pages.headD [])) ∧
    ((∀ n, sched n = false) →
      s'.lastSyncId =
        (match firstNonEmptyId (pages.headD []) with
         | none => settings.lastSyncId
         | some i => some i)) ∧
    (∃ tl ns, (syncBiji settings vault (Except.ok jwt) pages silent detail
        sched now ch np).trace = tl ++ SEvent.saved :: ns ∧
      (∀ e ∈ tl, e ≠ SEvent.saved) ∧
      (∀ e ∈ ns, ∃ m, e = SEvent.notice m)) := by
  have hv : validateRefreshToken settings.refreshToken = none := by
    unfold validateRefreshToken
    rw [if_neg htok]
  unfold syncBiji at hok ⊢
  rw [hv] at hok ⊢
  dsimp only at hok ⊢
  cases hp : pagesLoop
      { targetFolder := settings.targetFolder, silent := silent,
        lastSyncId := settings.lastSyncId, detail := detail, sched := sched,
        cleanHtml := ch, normalizePath := np } pages (initPState vault) with
  | mk rp evsp =>
    obtain ⟨PS, PB⟩ := pagesLoop_obs _ pages (initPState vault) rp evsp hp
    rw [hp] at hok
    cases rp with
    | error u =>
      cases u
      dsimp only at hok
      cases hok
    | ok stf =>
      dsimp only at hok ⊢
      injection hok with hok'
      subst hok'
      obtain ⟨_, _, hpre, hexact⟩ := PB stf rfl
      refine ⟨rfl, ?_, ?_, ?_⟩
      · cases hn : stf.newest with
        | none =>
          left
          simp [optTruthy]
        | some i =>
          rcases hpre rfl rfl with h0 | h0
          · rw [hn] at h0
            cases h0
          · right
            rw [hn] at h0
            have hine : i ≠ "" := firstNonEmptyId_ne_empty _ i h0.symm
            simpa [optTruthy, hine] using h0
      · intro hs
        have h0 := hexact (fun n => hs n) rfl rfl
        cases hn : stf.newest with
        | none =>
          rw [hn] at h0
          rw [← h0]
          simp [optTruthy]
        | some i =>
          rw [hn] at h0
          have hine : i ≠ "" := firstNonEmptyId_ne_empty _ i h0.symm
          rw [← h0]
          simp [optTruthy, hine]
      · refine ⟨evsp, _, rfl, PS, ?_⟩
        intro e he
        revert he
        split_ifs <;> intro he
        · cases he
        · exact ⟨_, List.mem_singleton.mp he⟩
        · exact ⟨_, List.mem_singleton.mp he⟩

/-- Witness for C1 (amended): a concrete, never-cancelled run over one page
of two notes stores the first note's identifier and stamps the completion
time, saving exactly once at the end. -/
theorem c1_cursor_amended_witness :
    (({ refreshToken := "RT", targetFolder := "Biji", lastSyncId := some "a",
        lastSyncTime := some 99 } : SyncSettings).lastSyncTime = some 99) ∧
    (({ refreshToken := "RT", targetFolder := "Biji", lastSyncId := some "a",
        lastSyncTime := some 99 } : SyncSettings).lastSyncId =
        demoSettings.lastSyncId ∨
     ({ refreshToken := "RT", targetFolder := "Biji", lastSyncId := some "a",
        lastSyncTime := some 99 } : SyncSettings).lastSyncId =
        firstNonEmptyId ([[mkNote "a", mkNote "b"]].headD [])) ∧
    ((∀ n, (fun _ => false : Nat → Bool) n = false) →
      ({ refreshToken := "RT", targetFolder := "Biji", lastSyncId := some "a",
         lastSyncTime := some 99 } : SyncSettings).lastSyncId =
        (match firstNonEmptyId ([[mkNote "a", mkNote "b"]].headD []) with
         | none => demoSettings.lastSyncId
         | some i => some i)) ∧
    (∃ tl ns,
      (syncBiji demoSettings [] (Except.ok "J") [[mkNote "a", mkNote "b"]]
        false (fun _ => DetailOutcome.value none) (fun _ => false) 99 id
        id).trace = tl ++ SEvent.saved :: ns ∧
      (∀ e ∈ tl, e ≠ SEvent.saved) ∧
      (∀ e ∈ ns, ∃ m, e = SEvent.notice m)) :=
  c1_cursor_amended demoSettings [] "J" [[mkNote "a", mkNote "b"]] false
    (fun _ => DetailOutcome.value none) (fun _ => false) 99 id id
    { refreshToken := "RT", targetFolder := "Biji", lastSyncId := some "a",
      lastSyncTime := some 99 }
    (by decide) (by decide)

lemma wroteIds_append (a b : List SEvent) :
    wroteIds (a ++ b) = wroteIds a ++ wroteIds b := by
  simp [wroteIds]

lemma fetchCount_append (a b : List SEvent) :
    fetchCount (a ++ b) = fetchCount a + fetchCount b := by
  simp [fetchCount]

lemma fetchCount_zero_of_loop (evs : List SEvent)
    (h : ∀ e ∈ evs, (∃ ms, e = SEvent.sleep ms) ∨
      ∃ i path ct, e = SEvent.wrote i path ct ∧ True) :
    fetchCount evs = 0 := by
  induction evs with
  | nil => rfl
  | cons e rest ih =>
    rcases h e (by simp) with ⟨ms, rfl⟩ | ⟨i, path, ct, rfl, _⟩ <;>
      simpa [fetchCount] using ih (fun x hx => h x (by simp [hx]))

lemma mem_takeWhile_append_left {α : Type} (p : α → Bool) (l₁ l₂ : List α)
    (x : α) (hx : x ∈ l₁.takeWhile p) : x ∈ (l₁ ++ l₂).takeWhile p := by
  induction l₁ with
  | nil => cases hx
  | cons a t ih =>
    by_cases hp : p a = true
    · rw [List.takeWhile_cons_of_pos hp] at hx
      rw [List.cons_append, List.takeWhile_cons_of_pos hp]
      rcases List.mem_cons.mp hx with rfl | hx2
      · exact List.mem_cons_self _ _
      · exact List.mem_cons_of_mem _ (ih hx2)
    · rw [List.takeWhile_cons_of_neg hp] at hx
      cases hx

lemma takeWhile_append_all {α : Type} (p : α → Bool) (l₁ l₂ : List α)
    (h : ∀ x ∈ l₁, p x = true) :
    (l₁ ++ l₂).takeWhile p = l₁ ++ l₂.takeWhile p := by
  induction l₁ with
  | nil => simp
  | cons a t ih =>
    rw [List.cons_append, List.takeWhile_cons_of_pos (h a (by simp)),
      ih (fun x hx => h x (by simp [hx]))]
    rfl

lemma notesLoop_cursor (cfg : SyncCfg) (c : String)
    (hc : cfg.lastSyncId = some c) (hct : c ≠ "") (notes : List BijiNote) :
    ∀ (st : PState) (r : Except Unit PState) (evs : List SEvent),
      notesLoop cfg notes st = (r, evs) →
      (∀ i ∈ wroteIds evs,
        i ∈ (notes.map (fun n => n.id)).takeWhile (fun i => decide (i ≠ c))) ∧
      (∀ st', r = Except.ok st' →
        c ∈ notes.map (fun n => n.id) →
        st'.stop = true ∨ ∃ t, st.tick ≤ t ∧ t < st'.tick ∧ cfg.sched t = true) := by
  have hopt : optTruthy cfg.lastSyncId = true := by
    rw [hc]
    simp [optTruthy, hct]
  induction notes with
  | nil =>
    intro st r evs h
    simp only [notesLoop] at h
    obtain ⟨hr, hevs⟩ := Prod.mk.injEq .. ▸ h
    subst hr hevs
    exact ⟨by simp [wroteIds], fun st' _ hmem => absurd hmem (by simp)⟩
  | cons note rest ih =>
    intro st r evs h
    simp only [notesLoop] at h
    by_cases hab : cfg.sched st.tick = true
    · rw [if_pos hab] at h
      obtain ⟨hr, hevs⟩ := Prod.mk.injEq .. ▸ h
      subst hr hevs
      refine ⟨by simp [wroteIds], ?_⟩
      intro st' h' _
      injection h' with h''
      subst h''
      exact Or.inr ⟨st.tick, Nat.le_refl _, Nat.lt_succ_self _, hab⟩
    · rw [if_neg hab] at h
      by_cases hstop : optTruthy cfg.lastSyncId = true ∧ cfg.lastSyncId = some note.id
      · rw [if_pos hstop] at h
        obtain ⟨hr, hevs⟩ := Prod.mk.injEq .. ▸ h
        subst hr hevs
        refine ⟨by simp [wroteIds], ?_⟩
        intro st' h' _
        injection h' with h''
        subst h''
        exact Or.inl rfl
      · rw [if_neg hstop] at h
        have hne : note.id ≠ c := by
          intro hid
          exact hstop ⟨hopt, by rw [hc, hid]⟩
        cases hpn : processNote cfg (captureStep note { st with tick := st.tick + 1 }) note with
        | mk r0 evs0 =>
          rw [hpn] at h
          obtain ⟨PE1, PE2⟩ :=
            processNote_evs cfg (captureStep note { st with tick := st.tick + 1 })
              note r0 evs0 hpn
          have htake : (List.map (fun n => n.id) (note :: rest)).takeWhile
              (fun i => decide (i ≠ c)) =
              note.id :: (rest.map (fun n => n.id)).takeWhile (fun i => decide (i ≠ c)) := by
            rw [List.map_cons, List.takeWhile_cons_of_pos (by simp [hne])]
          cases r0 with
          | error u =>
            cases u
            obtain ⟨hr, hevs⟩ := Prod.mk.injEq .. ▸ h
            subst hr hevs
            refine ⟨?_, ?_⟩
            · intro i hi
              rcases List.mem_filterMap.mp hi with ⟨e, he, hfe⟩
              rcases PE1 e he with ⟨ms, rfl⟩ | ⟨path, ct, rfl⟩
              · cases hfe
              · injection hfe with hfe'
                subst hfe'
                rw [htake]
                exact List.mem_cons_self _ _
            · intro st' h' _
              cases h'
          | ok st3 =>
            obtain ⟨hnw3, hsp3, hfp3, htk3⟩ := PE2 st3 rfl
            obtain ⟨hr, hevs⟩ := Prod.mk.injEq .. ▸ h
            subst hr hevs
            obtain ⟨IH1, IH2⟩ := ih st3 (notesLoop cfg rest st3).1
              (notesLoop cfg rest st3).2 rfl
            obtain ⟨_, htk0⟩ :=
              (captureStep_fields note { st with tick := st.tick + 1 }).2.2.2.2.2
            have htk3' : st3.tick = st.tick + 1 := by
              rw [htk3, htk0]
            refine ⟨?_, ?_⟩
            · intro i hi
              rw [wroteIds_append] at hi
              rcases List.mem_append.mp hi with h1 | h1
              · rcases List.mem_filterMap.mp h1 with ⟨e, he, hfe⟩
                rcases PE1 e he with ⟨ms, rfl⟩ | ⟨path, ct, rfl⟩
                · cases hfe
                · injection hfe with hfe'
                  subst hfe'
                  rw [htake]
                  exact List.mem_cons_self _ _
              · rw [htake]
                exact List.mem_cons_of_mem _ (IH1 i h1)
            · intro st' h' hmem
              rw [List.map_cons] at hmem
              rcases List.mem_cons.mp hmem with heq | hmem2
              · exact absurd heq.symm hne
              · rcases IH2 st' h' hmem2 with hl | ⟨t, ht1, ht2, ht3⟩
                · exact Or.inl hl
                · refine Or.inr ⟨t, ?_, ht2, ht3⟩
                  omega

lemma pagesLoop_cursor (cfg : SyncCfg) (c : String)
    (hc : cfg.lastSyncId = some c) (hct : c ≠ "")
    (hmono : ∀ m n, m ≤ n → cfg.sched m = true → cfg.sched n = true)
    (pages : List (List BijiNote)) :
    ∀ (st : PState) (r : Except Unit PState) (evs : List SEvent),
      pagesLoop cfg pages st = (r, evs) → st.stop = false →
      (∀ i ∈ wroteIds evs, i ∈ idsBeforeCursor c pages) ∧
      (∀ p, firstPageWith c pages = some p → fetchCount evs ≤ p + 1) := by
  induction pages with
  | nil =>
    intro st r evs h hstop0
    simp only [pagesLoop] at h
    obtain ⟨hr, hevs⟩ := Prod.mk.injEq .. ▸ h
    subst hr hevs
    exact ⟨by simp [wroteIds], fun p hp => by cases hp⟩
  | cons pg rest ih =>
    intro st r evs h hstop0
    simp only [pagesLoop] at h
    by_cases hab : cfg.sched st.tick = true
    · rw [if_pos hab] at h
      obtain ⟨hr, hevs⟩ := Prod.mk.injEq .. ▸ h
      subst hr hevs
      exact ⟨by simp [wroteIds], fun p _ => by simp [fetchCount]⟩
    · rw [if_neg hab] at h
      by_cases hab2 : cfg.sched (st.tick + 1) = true
      · rw [if_pos hab2] at h
        obtain ⟨hr, hevs⟩ := Prod.mk.injEq .. ▸ h
        subst hr hevs
        refine ⟨by simp [wroteIds], fun p _ => ?_⟩
        have : fetchCount [SEvent.fetchPage] = 1 := by simp [fetchCount]
        omega
      · rw [if_neg hab2] at h
        cases hnl : notesLoop cfg pg
            { { st with tick := st.tick + 1 } with
                tick := { st with tick := st.tick + 1 }.tick + 1 } with
        | mk rn evsn =>
          rw [hnl] at h
          obtain ⟨NC1, NC2⟩ := notesLoop_cursor cfg c hc hct pg _ rn evsn hnl
          obtain ⟨NL1, NL2⟩ := notesLoop_obs cfg pg _ rn evsn hnl
          have hembed : ∀ i, i ∈ (pg.map (fun n => n.id)).takeWhile
              (fun i => decide (i ≠ c)) → i ∈ idsBeforeCursor c (pg :: rest) := by
            intro i hi
            have hids : idsBeforeCursor c (pg :: rest) =
                ((pg.map (fun n => n.id)) ++
                  ((allNotes rest).map (fun n => n.id))).takeWhile
                  (fun i => decide (i ≠ c)) := by
              simp [idsBeforeCursor, allNotes]
            rw [hids]
            exact mem_takeWhile_append_left _ _ _ i hi
          have hfcn : fetchCount evsn = 0 := by
            apply fetchCount_zero_of_loop
            intro e he
            rcases NL1 e he with ⟨ms, rfl⟩ | ⟨i, path, ct, rfl, _⟩
            · exact Or.inl ⟨ms, rfl⟩
            · exact Or.inr ⟨i, path, ct, rfl, trivial⟩
          cases rn with
          | error u =>
            cases u
            obtain ⟨hr, hevs⟩ := Prod.mk.injEq .. ▸ h
            subst hr hevs
            refine ⟨?_, fun p _ => ?_⟩
            · intro i hi
              have : i ∈ wroteIds evsn := by simpa [wroteIds] using hi
              exact hembed i (NC1 i this)
            · have h1 : fetchCount (SEvent.fetchPage :: evsn) = 1 + fetchCount evsn := by
                simp [fetchCount]
                omega
              omega
          | ok st3 =>
            dsimp only at h
            by_cases hstop3 : st3.stop = true
            · rw [if_pos hstop3] at h
              obtain ⟨hr, hevs⟩ := Prod.mk.injEq .. ▸ h
              subst hr hevs
              refine ⟨?_, fun p _ => ?_⟩
              · intro i hi
                have : i ∈ wroteIds evsn := by simpa [wroteIds] using hi
                exact hembed i (NC1 i this)
              · have h1 : fetchCount (SEvent.fetchPage :: evsn) = 1 + fetchCount evsn := by
                  simp [fetchCount]
                  omega
                omega
            · rw [if_neg hstop3] at h
              by_cases hab3 : cfg.sched st3.tick = true
              · rw [if_pos hab3] at h
                obtain ⟨hr, hevs⟩ := Prod.mk.injEq .. ▸ h
                subst hr hevs
                refine ⟨?_, fun p _ => ?_⟩
                · intro i hi
                  have : i ∈ wroteIds evsn := by simpa [wroteIds] using hi
                  exact hembed i (NC1 i this)
                · have h1 : fetchCount (SEvent.fetchPage :: evsn) = 1 + fetchCount evsn := by
                    simp [fetchCount]
                    omega
                  omega
              · rw [if_neg hab3] at h
                have hnotin : c ∉ pg.map (fun n => n.id) := by
                  intro hmem
                  rcases NC2 st3 rfl hmem with hl | ⟨t, ht1, ht2, ht3⟩
                  · exact hstop3 hl
                  · exact hab3 (hmono t st3.tick (Nat.le_of_lt ht2) ht3)
                cases hpl : pagesLoop cfg rest
                    { { st3 with firstPage := false } with
                        tick := ({ st3 with firstPage := false }).tick + 1 } with
                | mk rr evsr =>
                  rw [hpl] at h
                  obtain ⟨hr, hevs⟩ := Prod.mk.injEq .. ▸ h
                  subst hr hevs
                  have hstop5 : ({ { st3 with firstPage := false } with
                      tick := ({ st3 with firstPage := false }).tick + 1 } : PState).stop = false := by
                    show st3.stop = false
                    cases hb : st3.stop with
                    | false => rfl
                    | true => exact absurd hb hstop3
                  obtain ⟨R1, R2⟩ := ih _ rr evsr hpl hstop5
                  have hallne : ∀ x ∈ pg.map (fun n => n.id),
                      (fun i => decide (i ≠ c)) x = true := by
                    intro x hx
                    simp only [decide_eq_true_eq]
                    intro heq
                    exact hnotin (heq ▸ hx)
                  have hidsplit : idsBeforeCursor c (pg :: rest) =
                      pg.map (fun n => n.id) ++ idsBeforeCursor c rest := by
                    have : idsBeforeCursor c (pg :: rest) =
                        ((pg.map (fun n => n.id)) ++
                          ((allNotes rest).map (fun n => n.id))).takeWhile
                          (fun i => decide (i ≠ c)) := by
                      simp [idsBeforeCursor, allNotes]
                    rw [this, takeWhile_append_all _ _ _ hallne]
                    rfl
                  refine ⟨?_, ?_⟩
                  · intro i hi
                    simp only [wroteIds, List.filterMap_cons, List.filterMap_append] at hi
                    rcases List.mem_append.mp hi with h1 | h1
                    rcases List.mem_append.mp h1 with h2 | h2
                    rcases List.mem_append.mp h2 with h3 | h3
                    · exact hembed i (NC1 i h3)
                    · revert h3
                      split_ifs <;> intro h3 <;> simp at h3
                    · revert h2
                      split_ifs <;> intro h2 <;> simp at h2
                    · rw [hidsplit]
                      exact List.mem_append_right _ (R1 i h1)
                  · intro p hp
                    dsimp only
                    have hany : pg.any (fun n => decide (n.id = c)) ≠ true := by
                      intro ha
                      rcases List.any_eq_true.mp ha with ⟨n, hn, hid⟩
                      simp only [decide_eq_true_eq] at hid
                      exact hnotin (by
                        rw [← hid]
                        exact List.mem_map_of_mem _ hn)
                    rw [firstPageWith, if_neg hany] at hp
                    rcases Option.map_eq_some'.mp hp with ⟨q, hq, hpq⟩
                    have hR := R2 q hq
                    have hfc : fetchCount (SEvent.fetchPage ::
                        (((evsn ++ (if cfg.silent = true then []
                          else [SEvent.notice ("Synced " ++ toString st3.syncCount ++ " notes...")])) ++
                          (if rest.isEmpty = true then [] else [SEvent.sleep PAGE_DELAY])) ++ evsr)) =
                        1 + fetchCount evsn + fetchCount evsr +
                          (fetchCount (if cfg.silent = true then []
                            else [SEvent.notice ("Synced " ++ toString st3.syncCount ++ " notes...")]) +
                           fetchCount (if rest.isEmpty = true then [] else [SEvent.sleep PAGE_DELAY])) := by
                      simp [fetchCount]
                      omega
                    have hfc1 : fetchCount (if cfg.silent = true then []
                        else [SEvent.notice ("Synced " ++ toString st3.syncCount ++ " notes...")]) = 0 := by
                      split_ifs <;> simp [fetchCount]
                    have hfc2 : fetchCount (if rest.isEmpty = true then []
                        else [SEvent.sleep PAGE_DELAY]) = 0 := by
                      split_ifs <;> simp [fetchCount]
                    omega

lemma mem_idsBeforeCursor_ne (c : String) (pages : List (List BijiNote))
    (i : String) (h : i ∈ idsBeforeCursor c pages) : i ≠ c := by
  have := List.mem_takeWhile_imp h
  simpa using this

/-- C5: in every sync run with a previously stored cursor identifier, every
note actually written strictly precedes the first occurrence of the cursor
note in visit order (in particular the cursor note itself is never written),
and once the page holding the cursor note has been fetched no further page
is fetched. Stated for monotone abort signals (a real AbortSignal never
un-aborts). -/
theorem c5_stop_at_cursor (settings : SyncSettings)
    (vault : List (String × Option (Option String)))
    (jwtResult : Except Unit String) (pages : List (List BijiNote))
    (silent : Bool) (detail : String → DetailOutcome) (sched : Nat → Bool)
    (now : Nat) (ch np : String → String) (c : String)
    (hc : settings.lastSyncId = some c) (hct : c ≠ "")
    (hmono : ∀ m n, m ≤ n → sched m = true → sched n = true) :
    (∀ i ∈ wroteIds (syncBiji settings vault jwtResult pages silent detail
        sched now ch np).trace,
      i ∈ idsBeforeCursor c pages ∧ i ≠ c) ∧
    (∀ p, firstPageWith c pages = some p →
      fetchCount (syncBiji settings vault jwtResult pages silent detail
        sched now ch np).trace ≤ p + 1) := by
  unfold syncBiji
  cases hv : validateRefreshToken settings.refreshToken with
  | some msg =>
    dsimp only
    refine ⟨?_, ?_⟩
    · intro i hi
      exfalso
      revert hi
      split_ifs <;> intro hi <;> simp [wroteIds] at hi
    · intro p _
      have : fetchCount (if silent then [] else [SEvent.notice msg]) = 0 := by
        split_ifs <;> simp [fetchCount]
      omega
  | none =>
    cases jwtResult with
    | error u =>
      cases u
      dsimp only
      exact ⟨fun i hi => by simp [wroteIds] at hi,
        fun p _ => by simp [fetchCount]⟩
    | ok jwt =>
      dsimp only
      cases hp : pagesLoop
          { targetFolder := settings.targetFolder, silent := silent,
            lastSyncId := settings.lastSyncId, detail := detail, sched := sched,
            cleanHtml := ch, normalizePath := np } pages (initPState vault) with
      | mk rp evsp =>
        obtain ⟨W, F⟩ := pagesLoop_cursor
          { targetFolder := settings.targetFolder, silent := silent,
            lastSyncId := settings.lastSyncId, detail := detail, sched := sched,
            cleanHtml := ch, normalizePath := np } c hc hct hmono pages
          (initPState vault) rp evsp hp rfl
        cases rp with
        | error u =>
          cases u
          dsimp only
          refine ⟨fun i hi => ⟨W i hi, mem_idsBeforeCursor_ne c pages i (W i hi)⟩,
            fun p hp2 => F p hp2⟩
        | ok stf =>
          dsimp only
          refine ⟨?_, ?_⟩
          · intro i hi
            rw [wroteIds_append] at hi
            rcases List.mem_append.mp hi with h1 | h1
            · exact ⟨W i h1, mem_idsBeforeCursor_ne c pages i (W i h1)⟩
            · exfalso
              revert h1
              simp only [wroteIds, List.filterMap_cons]
              split_ifs <;> intro h1 <;> simp at h1
          · intro p hp2
            rw [fetchCount_append]
            have hz : fetchCount (SEvent.saved ::
                (if silent = true then []
                 else if sched stf.tick = true then
                   [SEvent.notice ("Sync cancelled: " ++ toString stf.syncCount ++
                     " new, " ++ toString stf.skipCount ++ " skipped")]
                 else
                   [SEvent.notice ("Sync complete: " ++ toString stf.syncCount ++
                     " new, " ++ toString stf.skipCount ++ " skipped, " ++
                     toString stf.errorCount ++ " errors")])) = 0 := by
              split_ifs <;> simp [fetchCount]
            have hF := F p hp2
            omega

/-- Witness for C5: a run whose stored cursor is the second note of the first
of two pages writes only identifiers strictly before the cursor and fetches
at most the cursor page. -/
theorem c5_stop_at_cursor_witness :
    (∀ i ∈ wroteIds (syncBiji
        { refreshToken := "RT", targetFolder := "Biji",
          lastSyncId := some "b", lastSyncTime := none } []
        (Except.ok "J") [[mkNote "a", mkNote "b", mkNote "x"], [mkNote "y"]]
        false (fun _ => DetailOutcome.value none) (fun _ => false) 7 id
        id).trace,
      i ∈ idsBeforeCursor "b" [[mkNote "a", mkNote "b", mkNote "x"],
        [mkNote "y"]] ∧ i ≠ "b") ∧
    (∀ p, firstPageWith "b" [[mkNote "a", mkNote "b", mkNote "x"],
        [mkNote "y"]] = some p →
      fetchCount (syncBiji
        { refreshToken := "RT", targetFolder := "Biji",
          lastSyncId := some "b", lastSyncTime := none } []
        (Except.ok "J") [[mkNote "a", mkNote "b", mkNote "x"], [mkNote "y"]]
        false (fun _ => DetailOutcome.value none) (fun _ => false) 7 id
        id).trace ≤ p + 1) :=
  c5_stop_at_cursor
    { refreshToken := "RT", targetFolder := "Biji",
      lastSyncId := some "b", lastSyncTime := none } []
    (Except.ok "J") [[mkNote "a", mkNote "b", mkNote "x"], [mkNote "y"]]
    false (fun _ => DetailOutcome.value none) (fun _ => false) 7 id id "b"
    rfl (by decide) (fun m n _ h => h)

lemma obsOf_ok_eq (a b : PState) (h : eqObs a b) :
    obsOf (Except.ok a) = obsOf (Except.ok b) := by
  obtain ⟨h1, h2, h3, h4, h5, h6⟩ := h
  simp [obsOf, h1, h2, h3, h4, h5, h6]

lemma captureStep_eqObs (note : BijiNote) (a b : PState) (h : eqObs a b) :
    eqObs (captureStep note a) (captureStep note b) := by
  obtain ⟨h1, h2, h3, h4, h5, h6⟩ := h
  unfold captureStep
  simp only [h4, h6]
  split_ifs with hcond
  · exact ⟨h1, h2, h3, rfl, h5, rfl⟩
  · exact ⟨h1, h2, h3, h4, h5, h6⟩

lemma notesLoop_cons_step (cfg : SyncCfg) (note : BijiNote) (l : List BijiNote)
    (st : PState) (hab : cfg.sched st.tick = false)
    (hstop : ¬(optTruthy cfg.lastSyncId = true ∧ cfg.lastSyncId = some note.id)) :
    notesLoop cfg (note :: l) st =
      (match processNote cfg (captureStep note { st with tick := st.tick + 1 })
          note with
       | (Except.error (), evs) => (Except.error (), evs)
       | (Except.ok st3, evs) =>
         ((notesLoop cfg l st3).1, evs ++ (notesLoop cfg l st3).2)) := by
  simp only [notesLoop]
  rw [if_neg (by simp [hab]), if_neg hstop]

lemma notesLoop_cons_stop (cfg : SyncCfg) (note : BijiNote) (l : List BijiNote)
    (st : PState) (hab : cfg.sched st.tick = false)
    (hstop : optTruthy cfg.lastSyncId = true ∧ cfg.lastSyncId = some note.id) :
    notesLoop cfg (note :: l) st =
      (Except.ok { captureStep note { st with tick := st.tick + 1 } with
          stop := true }, []) := by
  simp only [notesLoop]
  rw [if_neg (by simp [hab]), if_pos hstop]

lemma notesLoop_filter_idless (cfg : SyncCfg) (hs : ∀ n, cfg.sched n = false)
    (notes : List BijiNote) :
    ∀ (a b : PState), eqObs a b →
      (notesLoop cfg (notes.filter (fun n => decide (n.id ≠ ""))) a).2 =
        (notesLoop cfg notes b).2 ∧
      obsOf (notesLoop cfg (notes.filter (fun n => decide (n.id ≠ ""))) a).1 =
        obsOf (notesLoop cfg notes b).1 := by
  induction notes with
  | nil =>
    intro a b hab
    exact ⟨rfl, obsOf_ok_eq a b hab⟩
  | cons note rest ih =>
    intro a b hab
    obtain ⟨h1, h2, h3, h4, h5, h6⟩ := hab
    by_cases hid : note.id = ""
    · have hflt : (note :: rest).filter (fun n => decide (n.id ≠ "")) =
          rest.filter (fun n => decide (n.id ≠ "")) := by
        simp [List.filter_cons, hid]
      have hstopc : ¬(optTruthy cfg.lastSyncId = true ∧
          cfg.lastSyncId = some note.id) := by
        rintro ⟨ho, he⟩
        rw [hid] at he
        rw [he] at ho
        simp [optTruthy] at ho
      have hcap : captureStep note { b with tick := b.tick + 1 } =
          { b with tick := b.tick + 1 } := by
        unfold captureStep
        rw [if_neg]
        rintro ⟨-, -, hne⟩
        exact hne hid
      have hraw : bijiNoteToRawNote cfg.cleanHtml note = none := by
        unfold bijiNoteToRawNote
        rw [if_pos hid]
      have hcore : processNoteCore cfg
          ({ b with tick := b.tick + 1 } : PState).vault note =
          NoteOutcome.skipped := by
        unfold processNoteCore
        rw [hraw]
      have hpn : processNote cfg { b with tick := b.tick + 1 } note =
          (Except.ok { { b with tick := b.tick + 1 } with
              skipCount := ({ b with tick := b.tick + 1 } : PState).skipCount + 1 },
           []) := by
        unfold processNote
        rw [hcore]
      rw [hflt, notesLoop_cons_step cfg note rest b (hs b.tick) hstopc, hcap, hpn]
      obtain ⟨T, O⟩ := ih a
        { { b with tick := b.tick + 1 } with
            skipCount := ({ b with tick := b.tick + 1 } : PState).skipCount + 1 }
        ⟨h1, h2, h3, h4, h5, h6⟩
      exact ⟨T, O⟩
    · have hflt : (note :: rest).filter (fun n => decide (n.id ≠ "")) =
          note :: rest.filter (fun n => decide (n.id ≠ "")) := by
        simp [List.filter_cons, hid]
      rw [hflt]
      by_cases hstopc : optTruthy cfg.lastSyncId = true ∧
          cfg.lastSyncId = some note.id
      · rw [notesLoop_cons_stop cfg note _ a (hs a.tick) hstopc,
          notesLoop_cons_stop cfg note rest b (hs b.tick) hstopc]
        refine ⟨rfl, obsOf_ok_eq _ _ ?_⟩
        obtain ⟨g1, g2, g3, g4, g5, g6⟩ :=
          captureStep_eqObs note { a with tick := a.tick + 1 }
            { b with tick := b.tick + 1 } ⟨h1, h2, h3, h4, h5, h6⟩
        exact ⟨g1, g2, g3, g4, rfl, g6⟩
      · rw [notesLoop_cons_step cfg note _ a (hs a.tick) hstopc,
          notesLoop_cons_step cfg note rest b (hs b.tick) hstopc]
        obtain ⟨g1, g2, g3, g4, g5, g6⟩ :=
          captureStep_eqObs note { a with tick := a.tick + 1 }
            { b with tick := b.tick + 1 } ⟨h1, h2, h3, h4, h5, h6⟩
        have hcoeq : processNoteCore cfg
            (captureStep note { a with tick := a.tick + 1 }).vault note =
            processNoteCore cfg
              (captureStep note { b with tick := b.tick + 1 }).vault note := by
          rw [g1]
        cases hco : processNoteCore cfg
            (captureStep note { b with tick := b.tick + 1 }).vault note with
        | skipped =>
          rw [hco] at hcoeq
          have hpa : processNote cfg
              (captureStep note { a with tick := a.tick + 1 }) note =
              (Except.ok { captureStep note { a with tick := a.tick + 1 } with
                  skipCount :=
                    (captureStep note { a with tick := a.tick + 1 }).skipCount + 1 },
               []) := by
            unfold processNote
            rw [hcoeq]
          have hpb : processNote cfg
              (captureStep note { b with tick := b.tick + 1 }) note =
              (Except.ok { captureStep note { b with tick := b.tick + 1 } with
                  skipCount :=
                    (captureStep note { b with tick := b.tick + 1 }).skipCount + 1 },
               []) := by
            unfold processNote
            rw [hco]
          rw [hpa, hpb]
          obtain ⟨T, O⟩ := ih
            { captureStep note { a with tick := a.tick + 1 } with
                skipCount :=
                  (captureStep note { a with tick := a.tick + 1 }).skipCount + 1 }
            { captureStep note { b with tick := b.tick + 1 } with
                skipCount :=
                  (captureStep note { b with tick := b.tick + 1 }).skipCount + 1 }
            ⟨g1, g2, g3, g4, g5, g6⟩
          exact ⟨by simpa using T, O⟩
        | fatal =>
          rw [hco] at hcoeq
          have hpa : processNote cfg
              (captureStep note { a with tick := a.tick + 1 }) note =
              (Except.error (), []) := by
            unfold processNote
            rw [hcoeq]
          have hpb : processNote cfg
              (captureStep note { b with tick := b.tick + 1 }) note =
              (Except.error (), []) := by
            unfold processNote
            rw [hco]
          rw [hpa, hpb]
          exact ⟨rfl, rfl⟩
        | collided evs0 =>
          rw [hco] at hcoeq
          have hpa : processNote cfg
              (captureStep note { a with tick := a.tick + 1 }) note =
              (Except.ok { captureStep note { a with tick := a.tick + 1 } with
                  errorCount :=
                    (captureStep note { a with tick := a.tick + 1 }).errorCount + 1 },
               evs0) := by
            unfold processNote
            rw [hcoeq]
          have hpb : processNote cfg
              (captureStep note { b with tick := b.tick + 1 }) note =
              (Except.ok { captureStep note { b with tick := b.tick + 1 } with
                  errorCount :=
                    (captureStep note { b with tick := b.tick + 1 }).errorCount + 1 },
               evs0) := by
            unfold processNote
            rw [hco]
          rw [hpa, hpb]
          obtain ⟨T, O⟩ := ih
            { captureStep note { a with tick := a.tick + 1 } with
                errorCount :=
                  (captureStep note { a with tick := a.tick + 1 }).errorCount + 1 }
            { captureStep note { b with tick := b.tick + 1 } with
                errorCount :=
                  (captureStep note { b with tick := b.tick + 1 }).errorCount + 1 }
            ⟨g1, g2, by rw [g3], g4, g5, g6⟩
          exact ⟨congrArg (fun x => evs0 ++ x) T, O⟩
        | created path content evs0 =>
          rw [hco] at hcoeq
          have hpa : processNote cfg
              (captureStep note { a with tick := a.tick + 1 }) note =
              (Except.ok { captureStep note { a with tick := a.tick + 1 } with
                  vault := (captureStep note { a with tick := a.tick + 1 }).vault ++
                    [(path, some (some note.id))]
                  syncCount :=
                    (captureStep note { a with tick := a.tick + 1 }).syncCount + 1 },
               evs0 ++ [SEvent.wrote note.id path content]) := by
            unfold processNote
            rw [hcoeq]
          have hpb : processNote cfg
              (captureStep note { b with tick := b.tick + 1 }) note =
              (Except.ok { captureStep note { b with tick := b.tick + 1 } with
                  vault := (captureStep note { b with tick := b.tick + 1 }).vault ++
                    [(path, some (some note.id))]
                  syncCount :=
                    (captureStep note { b with tick := b.tick + 1 }).syncCount + 1 },
               evs0 ++ [SEvent.wrote note.id path content]) := by
            unfold processNote
            rw [hco]
          rw [hpa, hpb]
          obtain ⟨T, O⟩ := ih
            { captureStep note { a with tick := a.tick + 1 } with
                vault := (captureStep note { a with tick := a.tick + 1 }).vault ++
                  [(path, some (some note.id))]
                syncCount :=
                  (captureStep note { a with tick := a.tick + 1 }).syncCount + 1 }
            { captureStep note { b with tick := b.tick + 1 } with
                vault := (captureStep note { b with tick := b.tick + 1 }).vault ++
                  [(path, some (some note.id))]
                syncCount :=
                  (captureStep note { b with tick := b.tick + 1 }).syncCount + 1 }
            ⟨by rw [g1], by rw [g2], g3, g4, g5, g6⟩
          exact ⟨congrArg (fun x => (evs0 ++ [SEvent.wrote note.id path content]) ++ x) T, O⟩

lemma pagesLoop_cons_step (cfg : SyncCfg) (hs : ∀ n, cfg.sched n = false)
    (pg : List BijiNote) (rest : List (List BijiNote)) (st : PState) :
    pagesLoop cfg (pg :: rest) st =
      (match notesLoop cfg pg
          { { st with tick := st.tick + 1 } with
              tick := ({ st with tick := st.tick + 1 } : PState).tick + 1 } with
       | (Except.error (), evs) => (Except.error (), SEvent.fetchPage :: evs)
       | (Except.ok st3, evs) =>
         if st3.stop = true then
           (Except.ok { st3 with firstPage := false }, SEvent.fetchPage :: evs)
         else
           ((pagesLoop cfg rest
               { { st3 with firstPage := false } with
                   tick := ({ st3 with firstPage := false } : PState).tick + 1 }).1,
            SEvent.fetchPage ::
              (evs ++
                (if cfg.silent then []
                 else [SEvent.notice
                   ("Synced " ++ toString st3.syncCount ++ " notes...")]) ++
                (if rest.isEmpty then [] else [SEvent.sleep PAGE_DELAY]) ++
                (pagesLoop cfg rest
                  { { st3 with firstPage := false } with
                      tick :=
                        ({ st3 with firstPage := false } : PState).tick + 1 }).2))) := by
  simp only [pagesLoop]
  rw [if_neg (by simp [hs]), if_neg (by simp [hs])]
  cases hnl : notesLoop cfg pg
      { { st with tick := st.tick + 1 } with
          tick := ({ st with tick := st.tick + 1 } : PState).tick + 1 } with
  | mk rn evsn =>
    cases rn with
    | error u => cases u; rfl
    | ok st3 =>
      dsimp only
      by_cases hstp : st3.stop = true
      · rw [if_pos hstp, if_pos hstp]
      · rw [if_neg hstp, if_neg hstp, if_neg (by simp [hs])]

lemma pagesLoop_filter_idless (cfg : SyncCfg) (hs : ∀ n, cfg.sched n = false)
    (pages : List (List BijiNote)) :
    ∀ (a b : PState), eqObs a b →
      (pagesLoop cfg
          (pages.map (fun pg => pg.filter (fun n => decide (n.id ≠ "")))) a).2 =
        (pagesLoop cfg pages b).2 ∧
      obsOf (pagesLoop cfg
          (pages.map (fun pg => pg.filter (fun n => decide (n.id ≠ "")))) a).1 =
        obsOf (pagesLoop cfg pages b).1 := by
  induction pages with
  | nil =>
    intro a b hab
    exact ⟨rfl, obsOf_ok_eq a b hab⟩
  | cons pg rest ih =>
    intro a b hab
    obtain ⟨h1, h2, h3, h4, h5, h6⟩ := hab
    rw [List.map_cons, pagesLoop_cons_step cfg hs _ _ a,
      pagesLoop_cons_step cfg hs pg rest b]
    obtain ⟨NT, NO⟩ := notesLoop_filter_idless cfg hs pg
      { { a with tick := a.tick + 1 } with
          tick := ({ a with tick := a.tick + 1 } : PState).tick + 1 }
      { { b with tick := b.tick + 1 } with
          tick := ({ b with tick := b.tick + 1 } : PState).tick + 1 }
      ⟨h1, h2, h3, h4, h5, h6⟩
    cases hra : notesLoop cfg (pg.filter (fun n => decide (n.id ≠ "")))
        { { a with tick := a.tick + 1 } with
            tick := ({ a with tick := a.tick + 1 } : PState).tick + 1 } with
    | mk ra evsa =>
      cases hrb : notesLoop cfg pg
          { { b with tick := b.tick + 1 } with
              tick := ({ b with tick := b.tick + 1 } : PState).tick + 1 } with
      | mk rb evsb =>
        rw [hra, hrb] at NT NO
        dsimp only at NT NO
        cases ra with
        | error u =>
          cases u
          cases rb with
          | error v =>
            cases v
            exact ⟨by rw [NT], rfl⟩
          | ok sb => simp [obsOf] at NO
        | ok sa =>
          cases rb with
          | error v => cases v; simp [obsOf] at NO
          | ok sb =>
            simp only [obsOf, Option.some.injEq, Prod.mk.injEq] at NO
            obtain ⟨k1, k2, k3, k4, k5, k6⟩ := NO
            dsimp only
            by_cases hstp : sb.stop = true
            · rw [if_pos (k5.trans hstp), if_pos hstp]
              refine ⟨by rw [NT], obsOf_ok_eq _ _ ⟨k1, k2, k3, k4, k5, rfl⟩⟩
            · rw [if_neg (fun h => hstp (k5.symm.trans h)), if_neg hstp]
              obtain ⟨RT, RO⟩ := ih
                { { sa with firstPage := false } with
                    tick := ({ sa with firstPage := false } : PState).tick + 1 }
                { { sb with firstPage := false } with
                    tick := ({ sb with firstPage := false } : PState).tick + 1 }
                ⟨k1, k2, k3, k4, k5, rfl⟩
              have hemp : (rest.map
                  (fun pg => pg.filter (fun n => decide (n.id ≠ "")))).isEmpty =
                  rest.isEmpty := by
                cases rest <;> rfl
              refine ⟨?_, RO⟩
              rw [NT, RT, k2, hemp]

/-- C7: a wire note without an identifier is rejected by the normalizer
(`bijiNoteToRawNote` returns no record exactly when the identifier is empty),
the per-note processing of such a note only bumps the skip counter and emits
no events, and a completed (never-cancelled) run reports the same synced-file
count whether or not the identifier-less notes are present in the pages. -/
theorem c7_idless_skipped (settings : SyncSettings)
    (vault : List (String × Option (Option String)))
    (jwtResult : Except Unit String) (pages : List (List BijiNote))
    (silent : Bool) (detail : String → DetailOutcome) (sched : Nat → Bool)
    (now : Nat) (ch np : String → String)
    (hs : ∀ n, sched n = false) :
    (∀ note : BijiNote, bijiNoteToRawNote ch note = none ↔ note.id = "") ∧
    (∀ (cfg : SyncCfg) (st : PState) (note : BijiNote), note.id = "" →
      processNote cfg st note =
        (Except.ok { st with skipCount := st.skipCount + 1 }, [])) ∧
    (syncBiji settings vault jwtResult
        (pages.map (fun pg => pg.filter (fun n => decide (n.id ≠ "")))) silent
        detail sched now ch np).syncCount =
      (syncBiji settings vault jwtResult pages silent detail sched now ch
        np).syncCount := by
  refine ⟨?_, ?_, ?_⟩
  · intro note
    rcases eq_or_ne note.id "" with h | h <;> simp [bijiNoteToRawNote, h]
  · intro cfg st note hid
    have hraw : bijiNoteToRawNote cfg.cleanHtml note = none := by
      unfold bijiNoteToRawNote
      rw [if_pos hid]
    have hcore : processNoteCore cfg st.vault note = NoteOutcome.skipped := by
      unfold processNoteCore
      rw [hraw]
    unfold processNote
    rw [hcore]
  · unfold syncBiji
    cases hv : validateRefreshToken settings.refreshToken with
    | some msg => rfl
    | none =>
      cases jwtResult with
      | error u => cases u; rfl
      | ok jwt =>
        dsimp only
        obtain ⟨T, O⟩ := pagesLoop_filter_idless
          { targetFolder := settings.targetFolder, silent := silent,
            lastSyncId := settings.lastSyncId, detail := detail, sched := sched,
            cleanHtml := ch, normalizePath := np } hs pages
          (initPState vault) (initPState vault) ⟨rfl, rfl, rfl, rfl, rfl, rfl⟩
        cases hpa : pagesLoop
            { targetFolder := settings.targetFolder, silent := silent,
              lastSyncId := settings.lastSyncId, detail := detail, sched := sched,
              cleanHtml := ch, normalizePath := np }
            (pages.map (fun pg => pg.filter (fun n => decide (n.id ≠ ""))))
            (initPState vault) with
        | mk ra evsa =>
          cases hpb : pagesLoop
              { targetFolder := settings.targetFolder, silent := silent,
                lastSyncId := settings.lastSyncId, detail := detail, sched := sched,
                cleanHtml := ch, normalizePath := np } pages (initPState vault) with
          | mk rb evsb =>
            rw [hpa, hpb] at O
            dsimp only at O
            cases ra with
            | error u =>
              cases u
              cases rb with
              | error v => cases v; rfl
              | ok sb => simp [obsOf] at O
            | ok sa =>
              cases rb with
              | error v => cases v; simp [obsOf] at O
              | ok sb =>
                simp only [obsOf, Option.some.injEq, Prod.mk.injEq] at O
                exact O.2.1

/-- Witness for C7: a one-page run containing an identifier-less note reports
the same synced-file count as the same run with that note removed. -/
theorem c7_idless_skipped_witness :
    (∀ note : BijiNote, bijiNoteToRawNote id note = none ↔ note.id = "") ∧
    (∀ (cfg : SyncCfg) (st : PState) (note : BijiNote), note.id = "" →
      processNote cfg st note =
        (Except.ok { st with skipCount := st.skipCount + 1 }, [])) ∧
    (syncBiji demoSettings [] (Except.ok "J")
        ([[mkNote "a", mkNote "", mkNote "b"]].map
          (fun pg => pg.filter (fun n => decide (n.id ≠ "")))) false
        (fun _ => DetailOutcome.value none) (fun _ => false) 99 id id).syncCount =
      (syncBiji demoSettings [] (Except.ok "J")
        [[mkNote "a", mkNote "", mkNote "b"]] false
        (fun _ => DetailOutcome.value none) (fun _ => false) 99 id
        id).syncCount :=
  c7_idless_skipped demoSettings [] (Except.ok "J")
    [[mkNote "a", mkNote "", mkNote "b"]] false
    (fun _ => DetailOutcome.value none) (fun _ => false) 99 id id
    (fun _ => rfl)
